import Mathlib

/-!
Verification of the `product` package of the dummyjson add-product client.

The Go source under scrutiny is `product/service_impl.go` (`AddProduct`,
`NewProductService`, `productService`, `DefaultMarshal`) and `product/product.go`
(the `Product` struct).  `AddProduct` serializes the input with
`json.Marshal`, builds a POST request with `http.NewRequest`, sets the
`Content-Type: application/json` header, executes it through the configured
`*http.Client`, accepts status 200/201, and decodes the body with
`json.NewDecoder(resp.Body).Decode(&result)`.

The relevant behaviour of the Go standard library (`encoding/json` marshaling
of the concrete `Product` struct, JSON scanning/decoding into `Product`,
`net/url`'s control-character check inside `http.NewRequest`) is embedded
explicitly below; each definition's doc comment names the library behaviour
it models.  Strings on the wire are modelled as `List Char`.
-/

namespace DummyJson

/-- The `Product` struct from `product/product.go`: five fields with JSON tags
`title`, `description`, `price`, `brand`, `category`.  Go's `int` is modelled
as `Int`. -/
structure Product where
  title : String
  description : String
  price : Int
  brand : String
  category : String
deriving DecidableEq, Repr

/-- The zero value `Product{}` of the Go struct: empty strings and 0. -/
def zeroProduct : Product := ⟨"", "", 0, "", ""⟩

/-- The five struct fields of `Product`, used to describe `encoding/json`'s
field matching when decoding into the struct. -/
inductive PField where
  | title
  | description
  | price
  | brand
  | category
deriving DecidableEq, Repr

/-- JSON values as produced by the scanner modelled below.  Number tokens keep
their source lexeme (Go's decoder also keeps the literal and converts it per
target field via `strconv.ParseInt`); object keys are the unquoted string
contents. -/
inductive Json where
  | null
  | bool (b : Bool)
  | num (lexeme : List Char)
  | str (s : List Char)
  | arr (elems : List Json)
  | obj (members : List (List Char × Json))

/-- Whether a JSON value is a number token.  Only number tokens can extend when
more bytes are appended to the input (their lexeme has no closing delimiter). -/
def Json.isNum : Json → Bool
  | .num _ => true
  | _ => false

/-! ## Decimal digits (strconv.AppendInt / strconv.ParseInt) -/

/-- The decimal digit character for `d` (meaningful for `d < 10`). -/
def digitChar (d : Nat) : Char :=
  match d with
  | 0 => '0' | 1 => '1' | 2 => '2' | 3 => '3' | 4 => '4'
  | 5 => '5' | 6 => '6' | 7 => '7' | 8 => '8' | _ => '9'

/-- Fuelled digit expansion; meaningful when `n < fuel` (each recursive step
divides `n` by 10, so `n + 1` initial fuel always suffices). -/
def natToDigitsAux (fuel n : Nat) : List Char :=
  match fuel with
  | 0 => []
  | f + 1 =>
    if n < 10 then [digitChar n]
    else natToDigitsAux f (n / 10) ++ [digitChar (n % 10)]

/-- Decimal digits of a natural number, most significant first, as emitted by
Go's `strconv.AppendInt` for the absolute value. -/
def natToDigits (n : Nat) : List Char :=
  natToDigitsAux (n + 1) n

/-- Decimal rendering of a Go `int` by `strconv.AppendInt` (used by
`encoding/json` when marshaling the `price` field). -/
def encodeInt (n : Int) : List Char :=
  if n < 0 then '-' :: natToDigits (-n).toNat else natToDigits n.toNat

/-- Numeric value of a list of decimal digit characters. -/
def digitsVal (l : List Char) : Nat :=
  l.foldl (fun a c => a * 10 + (c.toNat - 48)) 0

/-- Conversion of an integer literal to a Go `int`, as `strconv.ParseInt`
does when `encoding/json` stores a JSON number into an `int` field: an
optional leading minus sign followed by decimal digits only; any other
character (`.`, `e`, ...) makes the conversion fail. -/
def decodeIntLit (l : List Char) : Option Int :=
  match l with
  | [] => none
  | c :: cs =>
    if c = '-' then
      if cs ≠ [] ∧ cs.all Char.isDigit then some (-(digitsVal cs : Int)) else none
    else if (c :: cs).all Char.isDigit then some ((digitsVal (c :: cs) : Int)) else none

/-! ## String escaping (encoding/json appendString with HTML escaping) -/

/-- The lowercase hexadecimal digit character for `d` (meaningful for
`d < 16`), matching the `hex` table of `encoding/json`. -/
def hexDigitChar (d : Nat) : Char :=
  match d with
  | 0 => '0' | 1 => '1' | 2 => '2' | 3 => '3' | 4 => '4'
  | 5 => '5' | 6 => '6' | 7 => '7' | 8 => '8' | 9 => '9'
  | 10 => 'a' | 11 => 'b' | 12 => 'c' | 13 => 'd' | 14 => 'e' | _ => 'f'

/-- Escaping of one character by `encoding/json`'s string encoder with its
default HTML escaping: `"`, `\`, `\n`, `\r`, `\t` get two-character escapes,
other control characters become `\u00XX`, the HTML-sensitive `<`, `>`, `&`
and the line separators U+2028/U+2029 become `\u....` escapes, and every
other character is emitted as itself. -/
def escChar (c : Char) : List Char :=
  if c = '"' then ['\\', '"']
  else if c = '\\' then ['\\', '\\']
  else if c = '\n' then ['\\', 'n']
  else if c = '\r' then ['\\', 'r']
  else if c = '\t' then ['\\', 't']
  else if c.toNat < 0x20 then
    ['\\', 'u', '0', '0', hexDigitChar (c.toNat / 16), hexDigitChar (c.toNat % 16)]
  else if c = '<' then ['\\', 'u', '0', '0', '3', 'c']
  else if c = '>' then ['\\', 'u', '0', '0', '3', 'e']
  else if c = '&' then ['\\', 'u', '0', '0', '2', '6']
  else if c.toNat = 0x2028 then ['\\', 'u', '2', '0', '2', '8']
  else if c.toNat = 0x2029 then ['\\', 'u', '2', '0', '2', '9']
  else [c]

/-- Escaping of a whole string body, character by character. -/
def escapeChars (l : List Char) : List Char :=
  match l with
  | [] => []
  | c :: cs => escChar c ++ escapeChars cs

/-- A quoted JSON string as written by `encoding/json`: `"` + escaped body
+ `"`. -/
def jquote (l : List Char) : List Char :=
  '"' :: (escapeChars l ++ ['"'])

/-- The byte sequence `json.Marshal` produces for a `Product` value: an object
whose five members appear in struct-field order, each key taken from the
field's JSON tag, string fields quoted/escaped and the `int` field rendered
in decimal.  No whitespace is emitted. -/
def encodeProduct (p : Product) : List Char :=
  '{' :: (jquote "title".data ++ ':' :: jquote p.title.data)
    ++ ',' :: (jquote "description".data ++ ':' :: jquote p.description.data)
    ++ ',' :: (jquote "price".data ++ ':' :: encodeInt p.price)
    ++ ',' :: (jquote "brand".data ++ ':' :: jquote p.brand.data)
    ++ ',' :: (jquote "category".data ++ ':' :: jquote p.category.data)
    ++ ['}']

/-! ## JSON scanning (encoding/json scanner + Decoder.Decode)

`json.NewDecoder(r).Decode(&result)` reads exactly one JSON value from the
stream and leaves everything after it unread.  The scanner below follows the
JSON grammar the Go scanner accepts: optional whitespace before and between
tokens, `{...}` objects, `[...]` arrays, quoted strings with the standard
escapes (including `\uXXXX` with surrogate-pair handling as in Go's
`unquoteBytes`: a lone or mismatched surrogate becomes U+FFFD), `true`,
`false`, `null`, and numbers `-?(0|[1-9][0-9]*)(.[0-9]+)?([eE][+-]?[0-9]+)?`.
A raw control character inside a string literal is an error.  Parsing is
fuelled; every recursive descent consumes input first, so the fuel chosen by
`decodeResponseBody` (input length + 8) never runs out on inputs Go accepts. -/

/-- JSON whitespace accepted between tokens by the Go scanner. -/
def isWs (c : Char) : Bool :=
  c = ' ' || c = '\t' || c = '\n' || c = '\r'

/-- Drop leading JSON whitespace. -/
def skipWs (l : List Char) : List Char :=
  l.dropWhile isWs

/-- Hexadecimal digit value of a character, if it is one. -/
def hexVal? (c : Char) : Option Nat :=
  if '0' ≤ c ∧ c ≤ '9' then some (c.toNat - 48)
  else if 'a' ≤ c ∧ c ≤ 'f' then some (c.toNat - 87)
  else if 'A' ≤ c ∧ c ≤ 'F' then some (c.toNat - 55)
  else none

/-- The Unicode replacement character Go substitutes for invalid surrogate
escapes. -/
def replacementChar : Char := '�'

/-- Prepend a character to the string component of a scanner result. -/
def consFst (x : Char) : Option (List Char × List Char) → Option (List Char × List Char)
  | some (s, r) => some (x :: s, r)
  | none => none

/-- Resolve one `\uXXXX` escape whose code is `code`, given the input that
follows it: a high surrogate followed by a `\uXXXX` low surrogate combines
into the supplementary-plane character (consuming the second escape as well);
a lone or mismatched surrogate becomes U+FFFD; any other code stands for
itself.  This is the surrogate logic of Go's `unquoteBytes`. -/
def unescapeU (code : Nat) (r2 : List Char) : Char × List Char :=
  if 0xD800 ≤ code ∧ code < 0xDC00 then
    match r2 with
    | e1 :: e2 :: g1 :: g2 :: g3 :: g4 :: r3 =>
      if e1 = '\\' ∧ e2 = 'u' then
        match hexVal? g1, hexVal? g2, hexVal? g3, hexVal? g4 with
        | some a2, some b2, some c2, some d2 =>
          let code2 := ((a2 * 16 + b2) * 16 + c2) * 16 + d2
          if 0xDC00 ≤ code2 ∧ code2 < 0xE000 then
            (Char.ofNat (0x10000 + (code - 0xD800) * 0x400 + (code2 - 0xDC00)), r3)
          else (replacementChar, r2)
        | _, _, _, _ => (replacementChar, r2)
      else (replacementChar, r2)
    | _ => (replacementChar, r2)
  else if 0xDC00 ≤ code ∧ code < 0xE000 then (replacementChar, r2)
  else (Char.ofNat code, r2)

/-- Scan the body of a JSON string literal after the opening quote, returning
the unescaped contents and the input after the closing quote.  Mirrors Go's
string scanning plus `unquoteBytes`: standard two-character escapes, `\uXXXX`
(via `unescapeU`), error on a raw control character, an invalid escape, or
end of input before the closing quote.  `fuel` bounds the recursion (each
step consumes at least one input character, so `input.length + 1` suffices). -/
def parseStringBody (fuel : Nat) (input : List Char) : Option (List Char × List Char) :=
  match fuel with
  | 0 => none
  | fl + 1 =>
    match input with
    | [] => none
    | c :: rest =>
      if c = '"' then some ([], rest)
      else if c = '\\' then
        match rest with
        | [] => none
        | e :: r =>
          if e = '"' then consFst '"' (parseStringBody fl r)
          else if e = '\\' then consFst '\\' (parseStringBody fl r)
          else if e = '/' then consFst '/' (parseStringBody fl r)
          else if e = 'b' then consFst '\x08' (parseStringBody fl r)
          else if e = 'f' then consFst '\x0c' (parseStringBody fl r)
          else if e = 'n' then consFst '\n' (parseStringBody fl r)
          else if e = 'r' then consFst '\r' (parseStringBody fl r)
          else if e = 't' then consFst '\t' (parseStringBody fl r)
          else if e = 'u' then
            match r with
            | h1 :: h2 :: h3 :: h4 :: r2 =>
              match hexVal? h1, hexVal? h2, hexVal? h3, hexVal? h4 with
              | some a, some b, some c3, some d =>
                let code := ((a * 16 + b) * 16 + c3) * 16 + d
                consFst (unescapeU code r2).1 (parseStringBody fl (unescapeU code r2).2)
              | _, _, _, _ => none
            | _ => none
          else none
      else if c.toNat < 0x20 then none
      else consFst c (parseStringBody fl rest)

/-- A leading-zero integer part (`0` followed by another character), which
the JSON grammar rejects (the digit run is maximal, so a second character in
the run is always another digit). -/
def leadingZeroBad (l : List Char) : Bool :=
  match l with
  | c :: _ :: _ => decide (c = '0')
  | _ => false

/-- Scan an optional fraction part `.digits`; returns the consumed characters
(possibly none) and the rest. -/
def parseFrac (l : List Char) : Option (List Char × List Char) :=
  match l with
  | [] => some ([], [])
  | c :: r =>
    if c = '.' then
      let ds := r.takeWhile Char.isDigit
      if ds = [] then none else some ('.' :: ds, r.dropWhile Char.isDigit)
    else some ([], c :: r)

/-- Scan an optional exponent part `[eE][+-]?digits`; returns the consumed
characters (possibly none) and the rest. -/
def parseExp (l : List Char) : Option (List Char × List Char) :=
  match l with
  | [] => some ([], [])
  | c :: r =>
    if c = 'e' ∨ c = 'E' then
      let sr : List Char × List Char :=
        match r with
        | s :: r2 => if s = '+' ∨ s = '-' then ([s], r2) else ([], s :: r2)
        | [] => ([], [])
      let ds := sr.2.takeWhile Char.isDigit
      if ds = [] then none
      else some (c :: (sr.1 ++ ds), sr.2.dropWhile Char.isDigit)
    else some ([], c :: r)

/-- Scan a JSON number token, returning its lexeme and the rest of the input.
The token ends at the first character that cannot extend it, exactly as the
streaming Go scanner delimits numbers. -/
def parseNumber (input : List Char) : Option (List Char × List Char) :=
  let sgn : List Char × List Char :=
    match input with
    | [] => ([], [])
    | c :: r => if c = '-' then (['-'], r) else ([], c :: r)
  let ds := sgn.2.takeWhile Char.isDigit
  let r1 := sgn.2.dropWhile Char.isDigit
  if ds = [] then none
  else if leadingZeroBad ds then none
  else
    match parseFrac r1 with
    | none => none
    | some (fr, r2) =>
      match parseExp r2 with
      | none => none
      | some (ex, r3) => some (sgn.1 ++ ds ++ fr ++ ex, r3)

mutual

/-- Scan one JSON value (after optional leading whitespace), returning the
value and the unread rest of the input.  `fuel` only bounds the recursion
depth of the descent; it is threaded, not part of the Go source. -/
def parseValue (fuel : Nat) (input : List Char) : Option (Json × List Char) :=
  match fuel with
  | 0 => none
  | f + 1 =>
    match skipWs input with
    | [] => none
    | c :: rest =>
      if c = '{' then
        match skipWs rest with
        | [] => none
        | d :: r2 =>
          if d = '}' then some (.obj [], r2)
          else
            match parseMembers f (d :: r2) with
            | some (ms, r3) => some (.obj ms, r3)
            | none => none
      else if c = '[' then
        match skipWs rest with
        | [] => none
        | d :: r2 =>
          if d = ']' then some (.arr [], r2)
          else
            match parseElements f (d :: r2) with
            | some (vs, r3) => some (.arr vs, r3)
            | none => none
      else if c = '"' then
        match parseStringBody (rest.length + 1) rest with
        | some (s, r2) => some (.str s, r2)
        | none => none
      else if c = 't' then
        match rest with
        | c1 :: c2 :: c3 :: r2 =>
          if c1 = 'r' ∧ c2 = 'u' ∧ c3 = 'e' then some (.bool true, r2) else none
        | _ => none
      else if c = 'f' then
        match rest with
        | c1 :: c2 :: c3 :: c4 :: r2 =>
          if c1 = 'a' ∧ c2 = 'l' ∧ c3 = 's' ∧ c4 = 'e' then some (.bool false, r2) else none
        | _ => none
      else if c = 'n' then
        match rest with
        | c1 :: c2 :: c3 :: r2 =>
          if c1 = 'u' ∧ c2 = 'l' ∧ c3 = 'l' then some (.null, r2) else none
        | _ => none
      else if c = '-' ∨ c.isDigit then
        match parseNumber (c :: rest) with
        | some (lex, r2) => some (.num lex, r2)
        | none => none
      else none

/-- Scan the members of a JSON object, entered at the first character of the
first key (whitespace already skipped, first member known not to be `}`);
consumes the closing `}`. -/
def parseMembers (fuel : Nat) (input : List Char) : Option (List (List Char × Json) × List Char) :=
  match fuel with
  | 0 => none
  | f + 1 =>
    match input with
    | [] => none
    | c :: rest =>
      if c = '"' then
        match parseStringBody (rest.length + 1) rest with
        | some (k, r1) =>
          match skipWs r1 with
          | [] => none
          | d :: r2 =>
            if d = ':' then
              match parseValue f r2 with
              | some (v, r3) =>
                match skipWs r3 with
                | [] => none
                | d2 :: r4 =>
                  if d2 = ',' then
                    match parseMembers f (skipWs r4) with
                    | some (ms, r5) => some ((k, v) :: ms, r5)
                    | none => none
                  else if d2 = '}' then some ([(k, v)], r4)
                  else none
              | none => none
            else none
        | none => none
      else none

/-- Scan the elements of a JSON array, entered at the first character of the
first element (known not to be `]`); consumes the closing `]`. -/
def parseElements (fuel : Nat) (input : List Char) : Option (List Json × List Char) :=
  match fuel with
  | 0 => none
  | f + 1 =>
    match parseValue f input with
    | some (v, r1) =>
      match skipWs r1 with
      | [] => none
      | d :: r2 =>
        if d = ',' then
          match parseElements f r2 with
          | some (vs, r3) => some (v :: vs, r3)
          | none => none
        else if d = ']' then some ([v], r2)
        else none
    | none => none

end

/-! ## Decoding a JSON value into a `Product`
(encoding/json `Unmarshal`/`Decoder.Decode` object decoding) -/

/-- ASCII lower-casing of one character, the fold `encoding/json` applies when
matching JSON object keys to struct field names case-insensitively. -/
def foldChar (c : Char) : Char :=
  if 'A' ≤ c ∧ c ≤ 'Z' then Char.ofNat (c.toNat + 32) else c

/-- Key matching of `encoding/json`: an incoming object key selects the struct
field whose JSON tag it equals, an exact match being preferred but a
(ASCII) case-insensitive match also accepted.  The five `Product` tags are
pairwise distinct even up to case, so the two rules collapse into one
case-insensitive comparison.  A key matching no tag selects no field. -/
def matchKey (k : List Char) : Option PField :=
  if k.map foldChar = "title".data then some .title
  else if k.map foldChar = "description".data then some .description
  else if k.map foldChar = "price".data then some .price
  else if k.map foldChar = "brand".data then some .brand
  else if k.map foldChar = "category".data then some .category
  else none

/-- Record an unmarshaling error the way Go's decoder does (`d.saveError`):
only the first error of the run is kept, decoding continues. -/
def saveError (e : Option String) (m : String) : Option String :=
  match e with
  | none => some m
  | some _ => e

/-- Store one JSON value into one `Product` field, Go-style: `null` is a
no-op; a string value fills a string field; an integer-literal number fills
the `int` field (`strconv.ParseInt` on the lexeme, so fractions and exponents
fail); any other combination is an `UnmarshalTypeError`, recorded but not
stopping the walk. -/
def applyField (fld : PField) (v : Json) (st : Product × Option String) :
    Product × Option String :=
  match v with
  | .null => st
  | .str s =>
    match fld with
    | .title => ({ st.1 with title := String.mk s }, st.2)
    | .description => ({ st.1 with description := String.mk s }, st.2)
    | .brand => ({ st.1 with brand := String.mk s }, st.2)
    | .category => ({ st.1 with category := String.mk s }, st.2)
    | .price => (st.1, saveError st.2 "cannot unmarshal string into field price")
  | .num lex =>
    match fld with
    | .price =>
      match decodeIntLit lex with
      | some n => ({ st.1 with price := n }, st.2)
      | none => (st.1, saveError st.2 "cannot unmarshal number into field price")
    | .title => (st.1, saveError st.2 "cannot unmarshal number into field title")
    | .description => (st.1, saveError st.2 "cannot unmarshal number into field description")
    | .brand => (st.1, saveError st.2 "cannot unmarshal number into field brand")
    | .category => (st.1, saveError st.2 "cannot unmarshal number into field category")
  | _ => (st.1, saveError st.2 "cannot unmarshal value into field")

/-- Process one object member: a key matching no field is skipped (its value
ignored), a matching key stores its value via `applyField`.  Members are
processed in order, so a later duplicate key overwrites an earlier one. -/
def decodeStep (st : Product × Option String) (kv : List Char × Json) :
    Product × Option String :=
  match matchKey kv.1 with
  | none => st
  | some fld => applyField fld kv.2 st

/-- Decode one scanned JSON value into a `Product`, as
`json.Decoder.Decode(&result)` does with `result` starting at the zero value:
an object is walked member by member; top-level `null` is a no-op (zero value,
no error); any other top-level value is a type error. -/
def decodeVal (v : Json) : Except String Product :=
  match v with
  | .obj kvs =>
    match kvs.foldl decodeStep (zeroProduct, none) with
    | (p, none) => .ok p
    | (_, some m) => .error m
  | .null => .ok zeroProduct
  | _ => .error "cannot unmarshal value of wrong type into Product"

/-- The whole of `json.NewDecoder(resp.Body).Decode(&result)`: scan exactly
one JSON value from the body (leaving any trailing bytes unread) and decode
it into a `Product`; a scan failure (malformed or truncated JSON) is an
error.  The fuel `body.length + 8` covers every input the Go scanner accepts
(each level of descent first consumes input). -/
def decodeResponseBody (body : List Char) : Except String Product :=
  match parseValue (body.length + 8) body with
  | none => .error "invalid JSON in response body"
  | some (v, _) => decodeVal v

/-! ## The HTTP model and the service (product/service_impl.go) -/

/-- The slice of `http.Request` that `AddProduct` constructs and the client
observes: method, target URL, headers, body bytes. -/
structure Request where
  method : String
  url : String
  headers : List (String × String)
  body : List Char
deriving DecidableEq, Repr

/-- The slice of `http.Response` that `AddProduct` inspects: the status code
(a Go `int`) and the body bytes. -/
structure Response where
  statusCode : Int
  body : List Char
deriving DecidableEq, Repr

/-- `req.Header.Set(key, value)`: replace any existing values of the key with
the single given value (keys here are already in canonical form). -/
def setHeader (req : Request) (key value : String) : Request :=
  { req with headers := (req.headers.filter (fun kv => kv.1 ≠ key)) ++ [(key, value)] }

/-- Whether a URL string contains an ASCII control character (a byte below
0x20 or the byte 0x7f).  `net/url.Parse` — and hence `http.NewRequest` —
rejects exactly such strings with `net/url: invalid control character in URL`;
this is the request-construction failure mode the spec and the tests exercise
(other exotic parse failures of `net/url` are outside this model). -/
def containsCTL (s : String) : Bool :=
  s.data.any (fun c => c.toNat < 0x20 || c.toNat = 0x7f)

/-- `http.NewRequest(http.MethodPost, url, body)` as used on line 37 of
`service_impl.go`: fails when the URL is structurally invalid (modelled by
`containsCTL`), otherwise yields a request with no headers yet. -/
def httpNewRequest (method url : String) (body : List Char) : Except String Request :=
  if containsCTL url then .error "net/url: invalid control character in URL"
  else .ok { method := method, url := url, headers := [], body := body }

/-- An HTTP client, the `client.Do` capability: maps a request to a response
or a transport error string. -/
def HttpClient : Type := Request → Except String Response

/-- `json.Marshal` applied to a `Product` value: the concrete struct is always
serializable, so this never fails. -/
def jsonMarshal (p : Product) : Except String (List Char) :=
  .ok (encodeProduct p)

/-- The `productService` struct of `service_impl.go`: endpoint URL, HTTP
client, and the `marshal` field (a custom marshal function, per its comment
intended for testing). -/
structure ProductService where
  apiURL : String
  client : HttpClient
  marshal : Product → Except String (List Char)

/-- `NewProductService`: builds a `productService` with the given URL and
client and `marshal` set to `DefaultMarshal` (the standard `json.Marshal`). -/
def NewProductService (apiURL : String) (client : HttpClient) : ProductService :=
  { apiURL := apiURL, client := client, marshal := jsonMarshal }

/-- The errors `AddProduct` can return, one constructor per `return` site of
`service_impl.go`, each carrying the wrapped inner error (the status check
carries the observed status code). -/
inductive AddProductError where
  | marshalError (inner : String)
  | requestError (inner : String)
  | transportError (inner : String)
  | statusError (code : Int)
  | decodeError (inner : String)
deriving DecidableEq, Repr

/-- The message of each error as formatted by the `fmt.Errorf` calls of
`AddProduct` (`%w` renders the wrapped error's message, `%d` the code). -/
def AddProductError.message : AddProductError → String
  | .marshalError inner => "failed to marshal product: " ++ inner
  | .requestError inner => "failed to create request: " ++ inner
  | .transportError inner => "failed to send request: " ++ inner
  | .statusError code => "unexpected status code: " ++ toString code
  | .decodeError inner => "failed to decode response: " ++ inner

/-- `(s *productService) AddProduct(p Product) (Product, error)`, lines 31-58
of `service_impl.go`, step for step:
`body, err := json.Marshal(p)` (note: `json.Marshal` directly — the
`s.marshal` field is not consulted); `http.NewRequest(POST, s.apiURL, body)`;
`req.Header.Set("Content-Type", "application/json")`; `s.client.Do(req)`;
the status check accepting exactly 200 and 201; and
`json.NewDecoder(resp.Body).Decode(&result)`.  Each failure returns
`Product{}` with the wrapped error. -/
def AddProduct (s : ProductService) (p : Product) : Product × Option AddProductError :=
  match jsonMarshal p with
  | .error msg => (zeroProduct, some (.marshalError msg))
  | .ok body =>
    match httpNewRequest "POST" s.apiURL body with
    | .error msg => (zeroProduct, some (.requestError msg))
    | .ok req0 =>
      let req := setHeader req0 "Content-Type" "application/json"
      match s.client req with
      | .error msg => (zeroProduct, some (.transportError msg))
      | .ok resp =>
        if resp.statusCode ≠ 200 ∧ resp.statusCode ≠ 201 then
          (zeroProduct, some (.statusError resp.statusCode))
        else
          match decodeResponseBody resp.body with
          | .error msg => (zeroProduct, some (.decodeError msg))
          | .ok result => (result, none)

/-- The same method with the mutable state made explicit: the receiver `s`
(a pointer receiver, so assignments to its fields would be visible to the
caller) and the argument `p` are threaded through every step and returned
alongside the result.  The body of the Go method contains no assignment to
`s.apiURL`, `s.client`, `s.marshal` or to `p`, so every exit path returns
them as received. -/
def AddProductSt (s : ProductService) (p : Product) :
    ProductService × Product × (Product × Option AddProductError) :=
  match jsonMarshal p with
  | .error msg => (s, p, (zeroProduct, some (.marshalError msg)))
  | .ok body =>
    match httpNewRequest "POST" s.apiURL body with
    | .error msg => (s, p, (zeroProduct, some (.requestError msg)))
    | .ok req0 =>
      let req := setHeader req0 "Content-Type" "application/json"
      match s.client req with
      | .error msg => (s, p, (zeroProduct, some (.transportError msg)))
      | .ok resp =>
        if resp.statusCode ≠ 200 ∧ resp.statusCode ≠ 201 then
          (s, p, (zeroProduct, some (.statusError resp.statusCode)))
        else
          match decodeResponseBody resp.body with
          | .error msg => (s, p, (zeroProduct, some (.decodeError msg)))
          | .ok result => (s, p, (result, none))

/-- Read one field of a `Product`, tagging string fields and the `int` field
apart (used to state field-for-field decoding). -/
def readField (p : Product) : PField → String ⊕ Int
  | .title => .inl p.title
  | .description => .inl p.description
  | .price => .inr p.price
  | .brand => .inl p.brand
  | .category => .inl p.category

/-! ## Basic facts about the control flow of `AddProduct` -/

/-- C4: whenever `AddProduct` returns a non-nil error — from any of its five
steps — the accompanying `Product` value is the zero-valued `Product`. -/
theorem addProduct_error_yields_zero_product (s : ProductService) (p : Product)
    (e : AddProductError) (h : (AddProduct s p).2 = some e) :
    (AddProduct s p).1 = zeroProduct := by
  unfold AddProduct at h ⊢
  simp only [jsonMarshal] at h ⊢
  cases hreq : httpNewRequest "POST" s.apiURL (encodeProduct p) with
  | error m => simp [hreq]
  | ok req0 =>
    simp only [hreq] at h ⊢
    cases hcl : s.client (setHeader req0 "Content-Type" "application/json") with
    | error m => simp [hcl]
    | ok resp =>
      simp only [hcl] at h ⊢
      by_cases hst : resp.statusCode ≠ 200 ∧ resp.statusCode ≠ 201
      · simp [hst]
      · simp only [if_neg hst] at h ⊢
        cases hdec : decodeResponseBody resp.body with
        | error m => simp [hdec]
        | ok q => simp [hdec] at h

/-- Witness for C4 at a concrete failing call: a client that reports a
transport error makes `AddProduct` fail, and the returned product is the zero
value. -/
theorem addProduct_error_yields_zero_product_witness :
    (AddProduct ⟨"http://x", fun _ => Except.error "boom", jsonMarshal⟩ zeroProduct).2 =
      some (.transportError "boom") ∧
    (AddProduct ⟨"http://x", fun _ => Except.error "boom", jsonMarshal⟩ zeroProduct).1 =
      zeroProduct := by
  refine ⟨by decide, ?_⟩
  exact addProduct_error_yields_zero_product _ _ (.transportError "boom") (by decide)

/-- C5: with a structurally invalid endpoint URL (one containing a raw
control character), `AddProduct` fails at request construction with the
request-construction error, and the outcome is the same whatever the HTTP
client would do — the client is never consulted. -/
theorem addProduct_invalid_url_fails_before_network (s : ProductService) (p : Product)
    (hurl : containsCTL s.apiURL = true) :
    AddProduct s p =
      (zeroProduct, some (.requestError "net/url: invalid control character in URL")) ∧
    (∀ c₁ c₂ : HttpClient,
      AddProduct ⟨s.apiURL, c₁, s.marshal⟩ p = AddProduct ⟨s.apiURL, c₂, s.marshal⟩ p) := by
  constructor
  · unfold AddProduct
    simp only [jsonMarshal, httpNewRequest, hurl, if_pos]
  · intro c₁ c₂
    unfold AddProduct
    simp only [jsonMarshal, httpNewRequest, hurl, if_pos]

/-- Witness for C5: the URL `"http://\n"` from the repository's own test
(`new request error`) contains a raw newline. -/
theorem addProduct_invalid_url_fails_before_network_witness :
    containsCTL "http://\n" = true ∧
    AddProduct ⟨"http://\n", fun _ => Except.error "unreached", jsonMarshal⟩ zeroProduct =
      (zeroProduct, some (.requestError "net/url: invalid control character in URL")) := by
  refine ⟨by decide, ?_⟩
  exact (addProduct_invalid_url_fails_before_network
    ⟨"http://\n", fun _ => Except.error "unreached", jsonMarshal⟩ zeroProduct (by decide)).1

/-- C3 (code bug): `AddProduct` does not use the `marshal` field of the
service. The first conjunct shows the result never depends on that field;
the second evaluates a service whose `marshal` function always fails together
with a client that fails with a transport error: step 1 nevertheless
succeeds (the call reaches the transport step), where the claim — and the
spec — expect a serialization failure.  The Go method calls `json.Marshal`
directly on line 32 instead of `s.marshal`. -/
theorem addProduct_ignores_marshal_field :
    (∀ (url : String) (client : HttpClient) (p : Product)
      (mf mf' : Product → Except String (List Char)),
      AddProduct ⟨url, client, mf⟩ p = AddProduct ⟨url, client, mf'⟩ p) ∧
    AddProduct ⟨"http://example.com", fun _ => Except.error "network error",
        fun _ => Except.error "marshal error"⟩ zeroProduct =
      (zeroProduct, some (.transportError "network error")) := by
  exact ⟨fun _ _ _ _ _ => rfl, by decide⟩

/-- C9: `AddProduct` mutates neither the service's fields (`apiURL`,
`client`, `marshal`) nor the input product: the state-passing rendering of
the method returns the receiver and the argument unchanged on every path,
alongside exactly the result of `AddProduct`. -/
theorem addProduct_preserves_state (s : ProductService) (p : Product) :
    AddProductSt s p = (s, p, AddProduct s p) := by
  unfold AddProductSt AddProduct
  simp only [jsonMarshal]
  cases hreq : httpNewRequest "POST" s.apiURL (encodeProduct p) with
  | error m => simp [hreq]
  | ok req0 =>
    simp only [hreq]
    cases hcl : s.client (setHeader req0 "Content-Type" "application/json") with
    | error m => simp [hcl]
    | ok resp =>
      simp only [hcl]
      by_cases hst : resp.statusCode ≠ 200 ∧ resp.statusCode ≠ 201
      · simp [hst]
      · simp only [if_neg hst]
        cases hdec : decodeResponseBody resp.body with
        | error m => simp [hdec]
        | ok q => simp [hdec]

/-- C1: with any fixed response delivered by the client, the call succeeds
only if the status code is 200 or 201; for any other status code it returns
the status error carrying that code — whatever the body holds — and the
error's message contains the decimal status code. -/
theorem addProduct_accepts_only_200_201 (s : ProductService) (p : Product)
    (resp : Response)
    (hurl : containsCTL s.apiURL = false)
    (hcl : s.client = fun _ => Except.ok resp) :
    ((AddProduct s p).2 = none → resp.statusCode = 200 ∨ resp.statusCode = 201) ∧
    (resp.statusCode ≠ 200 → resp.statusCode ≠ 201 →
      AddProduct s p = (zeroProduct, some (.statusError resp.statusCode)) ∧
      ∃ pre post,
        pre ++ (toString resp.statusCode).data ++ post =
          (AddProductError.statusError resp.statusCode).message.data) := by
  constructor
  · intro hnone
    by_contra hboth
    push_neg at hboth
    unfold AddProduct at hnone
    simp only [jsonMarshal, httpNewRequest, hurl, Bool.false_eq_true, if_false, hcl,
      if_pos hboth] at hnone
    exact Option.noConfusion hnone
  · intro h200 h201
    constructor
    · unfold AddProduct
      simp only [jsonMarshal, httpNewRequest, hurl, Bool.false_eq_true, if_false, hcl,
        if_pos (And.intro h200 h201)]
    · exact ⟨"unexpected status code: ".data, [], by simp [AddProductError.message]⟩

/-- Witness for C1 at status 400 (the repository's `non-success status code`
test): the call fails with the status error for 400, whose message contains
`400`. -/
theorem addProduct_accepts_only_200_201_witness :
    containsCTL "http://x" = false ∧
    AddProduct ⟨"http://x", fun _ => Except.ok ⟨400, "some body".data⟩, jsonMarshal⟩
        zeroProduct =
      (zeroProduct, some (.statusError 400)) ∧
    ∃ pre post,
      pre ++ (toString (400 : Int)).data ++ post =
        (AddProductError.statusError 400).message.data := by
  have h := addProduct_accepts_only_200_201
    ⟨"http://x", fun _ => Except.ok ⟨400, "some body".data⟩, jsonMarshal⟩
    zeroProduct ⟨400, "some body".data⟩ (by decide) rfl
  exact ⟨by decide, (h.2 (by decide) (by decide)).1, (h.2 (by decide) (by decide)).2⟩

/-- C7: an accepted status (200) whose body is the malformed text
`{"invalid json` (the repository's `decode response error` test) makes
`AddProduct` fail at the decode step: the result is the zero product with a
decode error, whose message carries the decode-step prefix. -/
theorem addProduct_malformed_body_decode_error (s : ProductService) (p : Product)
    (hurl : containsCTL s.apiURL = false)
    (hcl : s.client = fun _ => Except.ok ⟨200, "\x7b\"invalid json".data⟩) :
    AddProduct s p = (zeroProduct, some (.decodeError "invalid JSON in response body")) ∧
    ∃ post,
      (AddProductError.decodeError "invalid JSON in response body").message =
        "failed to decode response: " ++ post := by
  constructor
  · unfold AddProduct
    simp only [jsonMarshal, httpNewRequest, hurl, Bool.false_eq_true, if_false, hcl]
    decide
  · exact ⟨"invalid JSON in response body", rfl⟩

/-! ## Decimal digits: facts used by the encode/decode round trip -/

theorem digitChar_isDigit (d : Nat) : (digitChar d).isDigit = true := by
  match d with
  | 0 | 1 | 2 | 3 | 4 | 5 | 6 | 7 | 8 => decide
  | n + 9 => rfl

theorem digitChar_toNat_sub (d : Nat) (h : d < 10) : (digitChar d).toNat - 48 = d := by
  match d, h with
  | 0, _ | 1, _ | 2, _ | 3, _ | 4, _ | 5, _ | 6, _ | 7, _ | 8, _ | 9, _ => decide

theorem digitChar_ne_zero (d : Nat) (h1 : 1 ≤ d) (h2 : d < 10) : digitChar d ≠ '0' := by
  match d, h1, h2 with
  | 1, _, _ | 2, _, _ | 3, _, _ | 4, _, _ | 5, _, _
  | 6, _, _ | 7, _, _ | 8, _, _ | 9, _, _ => decide

theorem ne_of_isDigit (c d : Char) (h1 : c.isDigit = true) (h2 : d.isDigit = false) :
    c ≠ d := by
  intro he
  subst he
  rw [h1] at h2
  cases h2

theorem natToDigitsAux_ne_nil (f n : Nat) : natToDigitsAux (f + 1) n ≠ [] := by
  unfold natToDigitsAux
  split <;> simp

theorem natToDigitsAux_all_digits (f : Nat) :
    ∀ n, (natToDigitsAux f n).all Char.isDigit = true := by
  induction f with
  | zero => intro n; rfl
  | succ f ih =>
    intro n
    unfold natToDigitsAux
    split
    · simp [digitChar_isDigit]
    · simp only [List.all_append, ih]
      simp [digitChar_isDigit]

theorem digitsVal_append_singleton (l : List Char) (c : Char) :
    digitsVal (l ++ [c]) = digitsVal l * 10 + (c.toNat - 48) := by
  simp [digitsVal, List.foldl_append]

theorem digitsVal_natToDigitsAux (f : Nat) :
    ∀ n, n < f → digitsVal (natToDigitsAux f n) = n := by
  induction f with
  | zero => intro n h; omega
  | succ f ih =>
    intro n h
    unfold natToDigitsAux
    split
    · rename_i h10
      simp [digitsVal, digitChar_toNat_sub n h10]
    · rename_i h10
      rw [digitsVal_append_singleton, ih (n / 10) (by omega),
        digitChar_toNat_sub (n % 10) (by omega)]
      omega

theorem natToDigitsAux_head_ne_zero (f : Nat) :
    ∀ n, n < f → 1 ≤ n → (natToDigitsAux f n).head? ≠ some '0' := by
  induction f with
  | zero => intro n h; omega
  | succ f ih =>
    intro n h h1
    unfold natToDigitsAux
    split
    · rename_i h10
      simp only [List.head?_cons, ne_eq, Option.some.injEq]
      exact digitChar_ne_zero n h1 h10
    · rename_i h10
      obtain ⟨g, rfl⟩ : ∃ g, f = g + 1 := ⟨f - 1, by omega⟩
      cases haux : natToDigitsAux (g + 1) (n / 10) with
      | nil => exact absurd haux (natToDigitsAux_ne_nil g (n / 10))
      | cons c cs =>
        simp only [List.cons_append, List.head?_cons, ne_eq, Option.some.injEq]
        have := ih (n / 10) (by omega) (by omega)
        rw [haux] at this
        simp only [List.head?_cons, ne_eq, Option.some.injEq] at this
        exact this

theorem natToDigits_ne_nil (n : Nat) : natToDigits n ≠ [] :=
  natToDigitsAux_ne_nil n n

theorem natToDigits_all_digits (n : Nat) : (natToDigits n).all Char.isDigit = true :=
  natToDigitsAux_all_digits (n + 1) n

theorem digitsVal_natToDigits (n : Nat) : digitsVal (natToDigits n) = n :=
  digitsVal_natToDigitsAux (n + 1) n (by omega)

theorem leadingZeroBad_eq_false_of_head (l : List Char) (h : l.head? ≠ some '0') :
    leadingZeroBad l = false := by
  match l with
  | [] => rfl
  | [c] => rfl
  | c :: c2 :: rest =>
    simp only [List.head?_cons, ne_eq, Option.some.injEq] at h
    simp [leadingZeroBad, h]

theorem leadingZeroBad_natToDigits (n : Nat) : leadingZeroBad (natToDigits n) = false := by
  rcases Nat.eq_zero_or_pos n with h | h
  · subst h; rfl
  · exact leadingZeroBad_eq_false_of_head _
      (natToDigitsAux_head_ne_zero (n + 1) n (by omega) h)

theorem takeWhile_dropWhile_append (p : Char → Bool) (ds r : List Char)
    (hds : ∀ c ∈ ds, p c = true)
    (hr : ∀ c, r.head? = some c → p c = false) :
    (ds ++ r).takeWhile p = ds ∧ (ds ++ r).dropWhile p = r := by
  induction ds with
  | nil =>
    simp only [List.nil_append]
    cases r with
    | nil => simp
    | cons c rest =>
      have hc := hr c rfl
      simp [List.takeWhile_cons, List.dropWhile_cons, hc]
  | cons c cs ih =>
    have hc := hds c (List.mem_cons_self c cs)
    have ⟨ih1, ih2⟩ := ih (fun x hx => hds x (List.mem_cons_of_mem _ hx))
    simp only [List.cons_append, List.takeWhile_cons, List.dropWhile_cons, hc]
    simp [ih1, ih2]

theorem parseNumber_encodeInt (n : Int) (r : List Char)
    (hr : ∀ c, r.head? = some c →
      c.isDigit = false ∧ c ≠ '.' ∧ c ≠ 'e' ∧ c ≠ 'E') :
    parseNumber (encodeInt n ++ r) = some (encodeInt n, r) := by
  have hfrac : parseFrac r = some ([], r) := by
    cases r with
    | nil => rfl
    | cons c rest =>
      have := (hr c rfl).2.1
      simp [parseFrac, this]
  have hexp : parseExp r = some ([], r) := by
    cases r with
    | nil => rfl
    | cons c rest =>
      have h1 := (hr c rfl).2.2.1
      have h2 := (hr c rfl).2.2.2
      simp [parseExp, h1, h2]
  by_cases hneg : n < 0
  · have hds := natToDigits_all_digits (-n).toNat
    simp only [List.all_eq_true] at hds
    have hspan := takeWhile_dropWhile_append Char.isDigit (natToDigits (-n).toNat) r
      hds (fun c hc => (hr c hc).1)
    simp only [encodeInt, if_pos hneg, List.cons_append]
    unfold parseNumber
    simp only [if_pos rfl, if_true, hspan.1, hspan.2]
    rw [if_neg (natToDigits_ne_nil (-n).toNat),
      if_neg (by rw [leadingZeroBad_natToDigits]; exact Bool.false_ne_true),
      hfrac]
    simp [hexp]
  · have hds := natToDigits_all_digits n.toNat
    simp only [List.all_eq_true] at hds
    have hspan := takeWhile_dropWhile_append Char.isDigit (natToDigits n.toNat) r
      hds (fun c hc => (hr c hc).1)
    simp only [encodeInt, if_neg hneg]
    cases hd : natToDigits n.toNat with
    | nil => exact absurd hd (natToDigits_ne_nil n.toNat)
    | cons c0 cs =>
      have hc0 : c0.isDigit = true := hds c0 (by rw [hd]; exact List.mem_cons_self c0 cs)
      have hc0ne : ¬c0 = '-' := ne_of_isDigit c0 '-' hc0 (by decide)
      rw [hd] at hspan
      have hne : (c0 :: cs : List Char) ≠ [] := by simp
      have hlz : leadingZeroBad (c0 :: cs) = false := by
        rw [← hd]; exact leadingZeroBad_natToDigits n.toNat
      have hspan1 : (c0 :: (cs ++ r)).takeWhile Char.isDigit = c0 :: cs := by
        have := hspan.1; simpa using this
      have hspan2 : (c0 :: (cs ++ r)).dropWhile Char.isDigit = r := by
        have := hspan.2; simpa using this
      unfold parseNumber
      simp only [List.cons_append, if_neg hc0ne, hspan1, hspan2]
      rw [if_neg hne, if_neg (by rw [hlz]; exact Bool.false_ne_true), hfrac]
      simp [hexp]

theorem decodeIntLit_encodeInt (n : Int) : decodeIntLit (encodeInt n) = some n := by
  by_cases hneg : n < 0
  · simp only [encodeInt, if_pos hneg]
    unfold decodeIntLit
    simp only [if_pos rfl, if_true]
    rw [if_pos ⟨natToDigits_ne_nil (-n).toNat, natToDigits_all_digits (-n).toNat⟩,
      digitsVal_natToDigits]
    have : -(((-n).toNat : Nat) : Int) = n := by omega
    rw [this]
  · simp only [encodeInt, if_neg hneg]
    cases hd : natToDigits n.toNat with
    | nil => exact absurd hd (natToDigits_ne_nil n.toNat)
    | cons c0 cs =>
      have hall := natToDigits_all_digits n.toNat
      rw [hd] at hall
      have hc0 : c0.isDigit = true := by
        simp only [List.all_eq_true] at hall
        exact hall c0 (List.mem_cons_self c0 cs)
      have hc0ne : ¬c0 = '-' := ne_of_isDigit c0 '-' hc0 (by decide)
      simp only [decodeIntLit]
      rw [if_neg hc0ne, if_pos hall]
      have hv := digitsVal_natToDigits n.toNat
      rw [hd] at hv
      rw [hv]
      have : ((n.toNat : Nat) : Int) = n := by omega
      rw [this]

/-! ## String escaping round trip -/

theorem hexVal?_hexDigitChar : ∀ d : Nat, d < 16 → hexVal? (hexDigitChar d) = some d := by
  decide

set_option maxHeartbeats 2000000 in
theorem escChar_length_pos (c : Char) : 1 ≤ (escChar c).length := by
  unfold escChar
  split_ifs
  all_goals simp only [List.length_cons, List.length_nil]
  all_goals omega

theorem escapeChars_length_ge (l : List Char) : l.length ≤ (escapeChars l).length := by
  induction l with
  | nil => simp [escapeChars]
  | cons c cs ih =>
    simp only [escapeChars, List.length_append, List.length_cons]
    have := escChar_length_pos c
    omega

theorem parseStringBody_quote (fl : Nat) (rest : List Char) :
    parseStringBody (fl + 1) ('"' :: rest) = some ([], rest) := by
  simp [parseStringBody]

theorem parseStringBody_plain (fl : Nat) (c : Char) (rest : List Char)
    (h1 : ¬c = '"') (h2 : ¬c = '\\') (h3 : ¬c.toNat < 0x20) :
    parseStringBody (fl + 1) (c :: rest) = consFst c (parseStringBody fl rest) := by
  simp [parseStringBody, h1, h2, h3]

theorem parseStringBody_escQuote (fl : Nat) (rest : List Char) :
    parseStringBody (fl + 1) ('\\' :: '"' :: rest) =
      consFst '"' (parseStringBody fl rest) := by
  simp [parseStringBody]

theorem parseStringBody_escBackslash (fl : Nat) (rest : List Char) :
    parseStringBody (fl + 1) ('\\' :: '\\' :: rest) =
      consFst '\\' (parseStringBody fl rest) := by
  simp [parseStringBody]

theorem parseStringBody_escN (fl : Nat) (rest : List Char) :
    parseStringBody (fl + 1) ('\\' :: 'n' :: rest) =
      consFst '\n' (parseStringBody fl rest) := by
  simp [parseStringBody]

theorem parseStringBody_escR (fl : Nat) (rest : List Char) :
    parseStringBody (fl + 1) ('\\' :: 'r' :: rest) =
      consFst '\r' (parseStringBody fl rest) := by
  simp [parseStringBody]

theorem parseStringBody_escT (fl : Nat) (rest : List Char) :
    parseStringBody (fl + 1) ('\\' :: 't' :: rest) =
      consFst '\t' (parseStringBody fl rest) := by
  simp [parseStringBody]

theorem parseStringBody_escU (fl : Nat) (h1 h2 h3 h4 : Char) (a b c3 d : Nat)
    (rest : List Char)
    (e1 : hexVal? h1 = some a) (e2 : hexVal? h2 = some b)
    (e3 : hexVal? h3 = some c3) (e4 : hexVal? h4 = some d) :
    parseStringBody (fl + 1) ('\\' :: 'u' :: h1 :: h2 :: h3 :: h4 :: rest) =
      consFst (unescapeU (((a * 16 + b) * 16 + c3) * 16 + d) rest).1
        (parseStringBody fl (unescapeU (((a * 16 + b) * 16 + c3) * 16 + d) rest).2) := by
  have hu : ¬('u' : Char) = '"' := by decide
  simp [parseStringBody, e1, e2, e3, e4]

theorem unescapeU_not_surrogate (code : Nat) (r2 : List Char) (h : code < 0xD800) :
    unescapeU code r2 = (Char.ofNat code, r2) := by
  unfold unescapeU
  rw [if_neg (by omega), if_neg (by omega)]

theorem parseStringBody_escape (l : List Char) :
    ∀ (g : Nat) (r : List Char),
      parseStringBody (l.length + g + 1) (escapeChars l ++ '"' :: r) = some (l, r) := by
  induction l with
  | nil =>
    intro g r
    simp only [escapeChars, List.length_nil, List.nil_append, Nat.zero_add]
    exact parseStringBody_quote g r
  | cons c cs ih =>
    intro g r
    have harith : (c :: cs).length + g + 1 = (cs.length + g + 1) + 1 := by
      simp only [List.length_cons]; omega
    rw [harith]
    by_cases h1 : c = '"'
    · subst h1
      simp only [escapeChars]
      rw [show escChar '"' = ['\\', '"'] from rfl]
      simp only [List.cons_append, List.nil_append]
      rw [parseStringBody_escQuote, ih g r]
      rfl
    · by_cases h2 : c = '\\'
      · subst h2
        simp only [escapeChars]
        rw [show escChar '\\' = ['\\', '\\'] from rfl]
        simp only [List.cons_append, List.nil_append]
        rw [parseStringBody_escBackslash, ih g r]
        rfl
      · by_cases h3 : c = '\n'
        · subst h3
          simp only [escapeChars]
          rw [show escChar '\n' = ['\\', 'n'] from rfl]
          simp only [List.cons_append, List.nil_append]
          rw [parseStringBody_escN, ih g r]
          rfl
        · by_cases h4 : c = '\r'
          · subst h4
            simp only [escapeChars]
            rw [show escChar '\r' = ['\\', 'r'] from rfl]
            simp only [List.cons_append, List.nil_append]
            rw [parseStringBody_escR, ih g r]
            rfl
          · by_cases h5 : c = '\t'
            · subst h5
              simp only [escapeChars]
              rw [show escChar '\t' = ['\\', 't'] from rfl]
              simp only [List.cons_append, List.nil_append]
              rw [parseStringBody_escT, ih g r]
              rfl
            · by_cases h6 : c.toNat < 0x20
              · simp only [escapeChars, escChar, if_neg h1, if_neg h2, if_neg h3, if_neg h4,
                  if_neg h5, if_pos h6, List.cons_append, List.nil_append]
                rw [parseStringBody_escU _ _ _ _ _ 0 0 (c.toNat / 16) (c.toNat % 16) _
                  (by decide) (by decide)
                  (hexVal?_hexDigitChar (c.toNat / 16) (by omega))
                  (hexVal?_hexDigitChar (c.toNat % 16) (by omega))]
                have hcode : ((0 * 16 + 0) * 16 + c.toNat / 16) * 16 + c.toNat % 16 =
                    c.toNat := by omega
                rw [hcode, unescapeU_not_surrogate c.toNat _ (by omega)]
                simp only [Char.ofNat_toNat]
                rw [ih g r]
                rfl
              · by_cases h7 : c = '<'
                · subst h7
                  simp only [escapeChars]
                  rw [show escChar '<' = ['\\', 'u', '0', '0', '3', 'c'] from rfl]
                  simp only [List.cons_append, List.nil_append]
                  rw [parseStringBody_escU _ _ _ _ _ 0 0 3 12 _
                    (by decide) (by decide) (by decide) (by decide)]
                  rw [unescapeU_not_surrogate _ _ (by omega)]
                  rw [ih g r]
                  rfl
                · by_cases h8 : c = '>'
                  · subst h8
                    simp only [escapeChars]
                    rw [show escChar '>' = ['\\', 'u', '0', '0', '3', 'e'] from rfl]
                    simp only [List.cons_append, List.nil_append]
                    rw [parseStringBody_escU _ _ _ _ _ 0 0 3 14 _
                      (by decide) (by decide) (by decide) (by decide)]
                    rw [unescapeU_not_surrogate _ _ (by omega)]
                    rw [ih g r]
                    rfl
                  · by_cases h9 : c = '&'
                    · subst h9
                      simp only [escapeChars]
                      rw [show escChar '&' = ['\\', 'u', '0', '0', '2', '6'] from rfl]
                      simp only [List.cons_append, List.nil_append]
                      rw [parseStringBody_escU _ _ _ _ _ 0 0 2 6 _
                        (by decide) (by decide) (by decide) (by decide)]
                      rw [unescapeU_not_surrogate _ _ (by omega)]
                      rw [ih g r]
                      rfl
                    · by_cases h10 : c.toNat = 0x2028
                      · simp only [escapeChars, escChar, if_neg h1, if_neg h2, if_neg h3,
                          if_neg h4, if_neg h5, if_neg h6, if_neg h7, if_neg h8, if_neg h9,
                          if_pos h10, List.cons_append, List.nil_append]
                        rw [parseStringBody_escU _ _ _ _ _ 2 0 2 8 _
                          (by decide) (by decide) (by decide) (by decide)]
                        rw [unescapeU_not_surrogate _ _ (by omega)]
                        have : Char.ofNat (((2 * 16 + 0) * 16 + 2) * 16 + 8) = c := by
                          have : (((2 * 16 + 0) * 16 + 2) * 16 + 8 : Nat) = c.toNat := by
                            omega
                          rw [this, Char.ofNat_toNat]
                        rw [this, ih g r]
                        rfl
                      · by_cases h11 : c.toNat = 0x2029
                        · simp only [escapeChars, escChar, if_neg h1, if_neg h2, if_neg h3,
                            if_neg h4, if_neg h5, if_neg h6, if_neg h7, if_neg h8,
                            if_neg h9, if_neg h10, if_pos h11, List.cons_append,
                            List.nil_append]
                          rw [parseStringBody_escU _ _ _ _ _ 2 0 2 9 _
                            (by decide) (by decide) (by decide) (by decide)]
                          rw [unescapeU_not_surrogate _ _ (by omega)]
                          have : Char.ofNat (((2 * 16 + 0) * 16 + 2) * 16 + 9) = c := by
                            have : (((2 * 16 + 0) * 16 + 2) * 16 + 9 : Nat) = c.toNat := by
                              omega
                            rw [this, Char.ofNat_toNat]
                          rw [this, ih g r]
                          rfl
                        · simp only [escapeChars, escChar, if_neg h1, if_neg h2, if_neg h3,
                            if_neg h4, if_neg h5, if_neg h6, if_neg h7, if_neg h8,
                            if_neg h9, if_neg h10, if_neg h11, List.cons_append,
                            List.nil_append, List.singleton_append]
                          rw [parseStringBody_plain _ _ _ h1 h2 h6, ih g r]
                          rfl

/-! ## Scanning the encoder's output -/

theorem skipWs_cons_of_not_ws (c : Char) (l : List Char) (h : isWs c = false) :
    skipWs (c :: l) = c :: l := by
  simp [skipWs, List.dropWhile_cons, h]

theorem parseValue_str (f : Nat) (l r : List Char) :
    parseValue (f + 1) ('"' :: (escapeChars l ++ '"' :: r)) = some (.str l, r) := by
  simp only [parseValue]
  rw [skipWs_cons_of_not_ws _ _ (by decide)]
  dsimp only
  rw [if_neg (by decide : ¬('"' : Char) = '{'), if_neg (by decide : ¬('"' : Char) = '['),
    if_pos (rfl : ('"' : Char) = '"')]
  have hge := escapeChars_length_ge l
  have hfuel : (escapeChars l ++ '"' :: r).length + 1 =
      l.length + ((escapeChars l).length - l.length + r.length + 1) + 1 := by
    simp only [List.length_append, List.length_cons]
    omega
  rw [hfuel, parseStringBody_escape l _ r]

theorem isWs_eq_false_of_isDigit (c : Char) (h : c.isDigit = true) : isWs c = false := by
  have h1 := ne_of_isDigit c ' ' h (by decide)
  have h2 := ne_of_isDigit c '\t' h (by decide)
  have h3 := ne_of_isDigit c '\n' h (by decide)
  have h4 := ne_of_isDigit c '\r' h (by decide)
  simp [isWs, h1, h2, h3, h4]

theorem encodeInt_head (n : Int) :
    ∃ c0 tl, encodeInt n = c0 :: tl ∧ (c0 = '-' ∨ c0.isDigit = true) := by
  by_cases hneg : n < 0
  · exact ⟨'-', natToDigits (-n).toNat, by simp [encodeInt, hneg], Or.inl rfl⟩
  · cases hd : natToDigits n.toNat with
    | nil => exact absurd hd (natToDigits_ne_nil _)
    | cons c0 cs =>
      refine ⟨c0, cs, by simp [encodeInt, hneg, hd], Or.inr ?_⟩
      have hall := natToDigits_all_digits n.toNat
      rw [hd] at hall
      simp only [List.all_eq_true] at hall
      exact hall c0 (List.mem_cons_self _ _)

theorem parseValue_int (f : Nat) (n : Int) (r : List Char)
    (hr : ∀ c, r.head? = some c →
      c.isDigit = false ∧ c ≠ '.' ∧ c ≠ 'e' ∧ c ≠ 'E') :
    parseValue (f + 1) (encodeInt n ++ r) = some (.num (encodeInt n), r) := by
  obtain ⟨c0, tl, henc, hc0⟩ := encodeInt_head n
  have hnum := parseNumber_encodeInt n r hr
  have hne : ∀ t : Char, t.isDigit = false → ¬t = '-' → ¬c0 = t := by
    rcases hc0 with h | h
    · subst h
      intro t _ ht2 he
      exact ht2 he.symm
    · intro t ht _
      exact ne_of_isDigit c0 t h ht
  have hnotws : isWs c0 = false := by
    rcases hc0 with h | h
    · subst h; decide
    · exact isWs_eq_false_of_isDigit c0 h
  rw [henc] at hnum ⊢
  simp only [List.cons_append] at hnum ⊢
  simp only [parseValue]
  rw [skipWs_cons_of_not_ws _ _ hnotws]
  dsimp only
  rw [if_neg (hne '{' (by decide) (by decide)), if_neg (hne '[' (by decide) (by decide)),
    if_neg (hne '"' (by decide) (by decide)), if_neg (hne 't' (by decide) (by decide)),
    if_neg (hne 'f' (by decide) (by decide)), if_neg (hne 'n' (by decide) (by decide)),
    if_pos hc0, hnum]

theorem parseMembers_step_comma (f : Nat) (k vs after : List Char)
    (v : Json) (ms : List (List Char × Json)) (fin : List Char)
    (hv : parseValue f vs = some (v, ',' :: after))
    (hm : parseMembers f (skipWs after) = some (ms, fin)) :
    parseMembers (f + 1) ('"' :: (escapeChars k ++ '"' :: ':' :: vs)) =
      some ((k, v) :: ms, fin) := by
  simp only [parseMembers]
  simp only [if_pos (rfl : ('"' : Char) = '"'), if_true]
  have hge := escapeChars_length_ge k
  have hfuel : (escapeChars k ++ '"' :: ':' :: vs).length + 1 =
      k.length + ((escapeChars k).length - k.length + (':' :: vs).length + 1) + 1 := by
    simp only [List.length_append, List.length_cons]
    omega
  rw [hfuel, parseStringBody_escape k _ (':' :: vs)]
  dsimp only
  rw [skipWs_cons_of_not_ws _ _ (by decide)]
  dsimp only
  rw [if_pos (rfl : (':' : Char) = ':'), hv]
  dsimp only
  rw [skipWs_cons_of_not_ws _ _ (by decide)]
  dsimp only
  rw [if_pos (rfl : (',' : Char) = ','), hm]

theorem parseMembers_step_last (f : Nat) (k vs fin : List Char) (v : Json)
    (hv : parseValue f vs = some (v, '}' :: fin)) :
    parseMembers (f + 1) ('"' :: (escapeChars k ++ '"' :: ':' :: vs)) =
      some ([(k, v)], fin) := by
  simp only [parseMembers]
  simp only [if_pos (rfl : ('"' : Char) = '"'), if_true]
  have hge := escapeChars_length_ge k
  have hfuel : (escapeChars k ++ '"' :: ':' :: vs).length + 1 =
      k.length + ((escapeChars k).length - k.length + (':' :: vs).length + 1) + 1 := by
    simp only [List.length_append, List.length_cons]
    omega
  rw [hfuel, parseStringBody_escape k _ (':' :: vs)]
  dsimp only
  rw [skipWs_cons_of_not_ws _ _ (by decide)]
  dsimp only
  rw [if_pos (rfl : (':' : Char) = ':'), hv]
  dsimp only
  rw [skipWs_cons_of_not_ws _ _ (by decide)]
  dsimp only
  rw [if_neg (by decide : ¬('}' : Char) = ','), if_pos (rfl : ('}' : Char) = '}')]

theorem parseValue_obj_members (f : Nat) (rest : List Char)
    (ms : List (List Char × Json)) (fin : List Char)
    (h : parseMembers f ('"' :: rest) = some (ms, fin)) :
    parseValue (f + 1) ('{' :: '"' :: rest) = some (.obj ms, fin) := by
  simp only [parseValue]
  rw [skipWs_cons_of_not_ws _ _ (by decide)]
  dsimp only
  rw [if_pos (rfl : ('{' : Char) = '{')]
  rw [skipWs_cons_of_not_ws _ _ (by decide)]
  dsimp only
  rw [if_neg (by decide : ¬('"' : Char) = '}'), h]

theorem parseValue_encodeProduct (f : Nat) (p : Product) :
    parseValue (f + 7) (encodeProduct p) =
      some (.obj [("title".data, .str p.title.data),
        ("description".data, .str p.description.data),
        ("price".data, .num (encodeInt p.price)),
        ("brand".data, .str p.brand.data),
        ("category".data, .str p.category.data)], []) := by
  have hshape : encodeProduct p =
      '{' :: '"' :: (escapeChars "title".data ++ '"' :: ':' :: '"' :: (escapeChars p.title.data ++ '"' :: ',' :: '"' :: (escapeChars "description".data ++ '"' :: ':' :: '"' :: (escapeChars p.description.data ++ '"' :: ',' :: '"' :: (escapeChars "price".data ++ '"' :: ':' :: (encodeInt p.price ++ ',' :: '"' :: (escapeChars "brand".data ++ '"' :: ':' :: '"' :: (escapeChars p.brand.data ++ '"' :: ',' :: '"' :: (escapeChars "category".data ++ '"' :: ':' :: '"' :: (escapeChars p.category.data ++ '"' :: '}' :: [])))))))))) := by
    simp [encodeProduct, jquote, List.append_assoc]
  rw [hshape]
  have h5 : parseValue (f + 1) ('"' :: (escapeChars p.category.data ++ '"' :: '}' :: [])) =
      some (.str p.category.data, '}' :: []) :=
    parseValue_str f p.category.data ('}' :: [])
  have hm5 : parseMembers (f + 2) ('"' :: (escapeChars "category".data ++ '"' :: ':' :: '"' :: (escapeChars p.category.data ++ '"' :: '}' :: []))) =
      some ([("category".data, Json.str p.category.data)], []) :=
    parseMembers_step_last (f + 1) "category".data ('"' :: (escapeChars p.category.data ++ '"' :: '}' :: [])) [] (Json.str p.category.data) h5
  have h4 : parseValue (f + 2) ('"' :: (escapeChars p.brand.data ++ '"' :: ',' :: '"' :: (escapeChars "category".data ++ '"' :: ':' :: '"' :: (escapeChars p.category.data ++ '"' :: '}' :: [])))) =
      some (.str p.brand.data, ',' :: ('"' :: (escapeChars "category".data ++ '"' :: ':' :: '"' :: (escapeChars p.category.data ++ '"' :: '}' :: [])))) :=
    parseValue_str (f + 1) p.brand.data (',' :: ('"' :: (escapeChars "category".data ++ '"' :: ':' :: '"' :: (escapeChars p.category.data ++ '"' :: '}' :: []))))
  have hm4 : parseMembers (f + 3) ('"' :: (escapeChars "brand".data ++ '"' :: ':' :: '"' :: (escapeChars p.brand.data ++ '"' :: ',' :: '"' :: (escapeChars "category".data ++ '"' :: ':' :: '"' :: (escapeChars p.category.data ++ '"' :: '}' :: []))))) =
      some (("brand".data, Json.str p.brand.data) :: [("category".data, Json.str p.category.data)], []) :=
    parseMembers_step_comma (f + 2) "brand".data ('"' :: (escapeChars p.brand.data ++ '"' :: ',' :: '"' :: (escapeChars "category".data ++ '"' :: ':' :: '"' :: (escapeChars p.category.data ++ '"' :: '}' :: [])))) ('"' :: (escapeChars "category".data ++ '"' :: ':' :: '"' :: (escapeChars p.category.data ++ '"' :: '}' :: [])))
      (Json.str p.brand.data) [("category".data, Json.str p.category.data)] [] h4
      (by rw [skipWs_cons_of_not_ws _ _ (by decide)]; exact hm5)
  have h3 : parseValue (f + 3) (encodeInt p.price ++ ',' :: '"' :: (escapeChars "brand".data ++ '"' :: ':' :: '"' :: (escapeChars p.brand.data ++ '"' :: ',' :: '"' :: (escapeChars "category".data ++ '"' :: ':' :: '"' :: (escapeChars p.category.data ++ '"' :: '}' :: []))))) =
      some (.num (encodeInt p.price), ',' :: ('"' :: (escapeChars "brand".data ++ '"' :: ':' :: '"' :: (escapeChars p.brand.data ++ '"' :: ',' :: '"' :: (escapeChars "category".data ++ '"' :: ':' :: '"' :: (escapeChars p.category.data ++ '"' :: '}' :: [])))))) :=
    parseValue_int (f + 2) p.price (',' :: ('"' :: (escapeChars "brand".data ++ '"' :: ':' :: '"' :: (escapeChars p.brand.data ++ '"' :: ',' :: '"' :: (escapeChars "category".data ++ '"' :: ':' :: '"' :: (escapeChars p.category.data ++ '"' :: '}' :: []))))))
      (by
        intro c hc
        simp only [List.head?_cons, Option.some.injEq] at hc
        subst hc
        exact ⟨by decide, by decide, by decide, by decide⟩)
  have hm3 : parseMembers (f + 4) ('"' :: (escapeChars "price".data ++ '"' :: ':' :: (encodeInt p.price ++ ',' :: '"' :: (escapeChars "brand".data ++ '"' :: ':' :: '"' :: (escapeChars p.brand.data ++ '"' :: ',' :: '"' :: (escapeChars "category".data ++ '"' :: ':' :: '"' :: (escapeChars p.category.data ++ '"' :: '}' :: []))))))) =
      some (("price".data, Json.num (encodeInt p.price)) :: (("brand".data, Json.str p.brand.data) :: [("category".data, Json.str p.category.data)]), []) :=
    parseMembers_step_comma (f + 3) "price".data (encodeInt p.price ++ ',' :: '"' :: (escapeChars "brand".data ++ '"' :: ':' :: '"' :: (escapeChars p.brand.data ++ '"' :: ',' :: '"' :: (escapeChars "category".data ++ '"' :: ':' :: '"' :: (escapeChars p.category.data ++ '"' :: '}' :: []))))) ('"' :: (escapeChars "brand".data ++ '"' :: ':' :: '"' :: (escapeChars p.brand.data ++ '"' :: ',' :: '"' :: (escapeChars "category".data ++ '"' :: ':' :: '"' :: (escapeChars p.category.data ++ '"' :: '}' :: [])))))
      (Json.num (encodeInt p.price)) (("brand".data, Json.str p.brand.data) :: [("category".data, Json.str p.category.data)]) [] h3
      (by rw [skipWs_cons_of_not_ws _ _ (by decide)]; exact hm4)
  have h2 : parseValue (f + 4) ('"' :: (escapeChars p.description.data ++ '"' :: ',' :: '"' :: (escapeChars "price".data ++ '"' :: ':' :: (encodeInt p.price ++ ',' :: '"' :: (escapeChars "brand".data ++ '"' :: ':' :: '"' :: (escapeChars p.brand.data ++ '"' :: ',' :: '"' :: (escapeChars "category".data ++ '"' :: ':' :: '"' :: (escapeChars p.category.data ++ '"' :: '}' :: [])))))))) =
      some (.str p.description.data, ',' :: ('"' :: (escapeChars "price".data ++ '"' :: ':' :: (encodeInt p.price ++ ',' :: '"' :: (escapeChars "brand".data ++ '"' :: ':' :: '"' :: (escapeChars p.brand.data ++ '"' :: ',' :: '"' :: (escapeChars "category".data ++ '"' :: ':' :: '"' :: (escapeChars p.category.data ++ '"' :: '}' :: [])))))))) :=
    parseValue_str (f + 3) p.description.data (',' :: ('"' :: (escapeChars "price".data ++ '"' :: ':' :: (encodeInt p.price ++ ',' :: '"' :: (escapeChars "brand".data ++ '"' :: ':' :: '"' :: (escapeChars p.brand.data ++ '"' :: ',' :: '"' :: (escapeChars "category".data ++ '"' :: ':' :: '"' :: (escapeChars p.category.data ++ '"' :: '}' :: []))))))))
  have hm2 : parseMembers (f + 5) ('"' :: (escapeChars "description".data ++ '"' :: ':' :: '"' :: (escapeChars p.description.data ++ '"' :: ',' :: '"' :: (escapeChars "price".data ++ '"' :: ':' :: (encodeInt p.price ++ ',' :: '"' :: (escapeChars "brand".data ++ '"' :: ':' :: '"' :: (escapeChars p.brand.data ++ '"' :: ',' :: '"' :: (escapeChars "category".data ++ '"' :: ':' :: '"' :: (escapeChars p.category.data ++ '"' :: '}' :: []))))))))) =
      some (("description".data, Json.str p.description.data) :: (("price".data, Json.num (encodeInt p.price)) :: (("brand".data, Json.str p.brand.data) :: [("category".data, Json.str p.category.data)])), []) :=
    parseMembers_step_comma (f + 4) "description".data ('"' :: (escapeChars p.description.data ++ '"' :: ',' :: '"' :: (escapeChars "price".data ++ '"' :: ':' :: (encodeInt p.price ++ ',' :: '"' :: (escapeChars "brand".data ++ '"' :: ':' :: '"' :: (escapeChars p.brand.data ++ '"' :: ',' :: '"' :: (escapeChars "category".data ++ '"' :: ':' :: '"' :: (escapeChars p.category.data ++ '"' :: '}' :: [])))))))) ('"' :: (escapeChars "price".data ++ '"' :: ':' :: (encodeInt p.price ++ ',' :: '"' :: (escapeChars "brand".data ++ '"' :: ':' :: '"' :: (escapeChars p.brand.data ++ '"' :: ',' :: '"' :: (escapeChars "category".data ++ '"' :: ':' :: '"' :: (escapeChars p.category.data ++ '"' :: '}' :: [])))))))
      (Json.str p.description.data) (("price".data, Json.num (encodeInt p.price)) :: (("brand".data, Json.str p.brand.data) :: [("category".data, Json.str p.category.data)])) [] h2
      (by rw [skipWs_cons_of_not_ws _ _ (by decide)]; exact hm3)
  have h1 : parseValue (f + 5) ('"' :: (escapeChars p.title.data ++ '"' :: ',' :: '"' :: (escapeChars "description".data ++ '"' :: ':' :: '"' :: (escapeChars p.description.data ++ '"' :: ',' :: '"' :: (escapeChars "price".data ++ '"' :: ':' :: (encodeInt p.price ++ ',' :: '"' :: (escapeChars "brand".data ++ '"' :: ':' :: '"' :: (escapeChars p.brand.data ++ '"' :: ',' :: '"' :: (escapeChars "category".data ++ '"' :: ':' :: '"' :: (escapeChars p.category.data ++ '"' :: '}' :: [])))))))))) =
      some (.str p.title.data, ',' :: ('"' :: (escapeChars "description".data ++ '"' :: ':' :: '"' :: (escapeChars p.description.data ++ '"' :: ',' :: '"' :: (escapeChars "price".data ++ '"' :: ':' :: (encodeInt p.price ++ ',' :: '"' :: (escapeChars "brand".data ++ '"' :: ':' :: '"' :: (escapeChars p.brand.data ++ '"' :: ',' :: '"' :: (escapeChars "category".data ++ '"' :: ':' :: '"' :: (escapeChars p.category.data ++ '"' :: '}' :: [])))))))))) :=
    parseValue_str (f + 4) p.title.data (',' :: ('"' :: (escapeChars "description".data ++ '"' :: ':' :: '"' :: (escapeChars p.description.data ++ '"' :: ',' :: '"' :: (escapeChars "price".data ++ '"' :: ':' :: (encodeInt p.price ++ ',' :: '"' :: (escapeChars "brand".data ++ '"' :: ':' :: '"' :: (escapeChars p.brand.data ++ '"' :: ',' :: '"' :: (escapeChars "category".data ++ '"' :: ':' :: '"' :: (escapeChars p.category.data ++ '"' :: '}' :: []))))))))))
  have hm1 : parseMembers (f + 6) ('"' :: (escapeChars "title".data ++ '"' :: ':' :: '"' :: (escapeChars p.title.data ++ '"' :: ',' :: '"' :: (escapeChars "description".data ++ '"' :: ':' :: '"' :: (escapeChars p.description.data ++ '"' :: ',' :: '"' :: (escapeChars "price".data ++ '"' :: ':' :: (encodeInt p.price ++ ',' :: '"' :: (escapeChars "brand".data ++ '"' :: ':' :: '"' :: (escapeChars p.brand.data ++ '"' :: ',' :: '"' :: (escapeChars "category".data ++ '"' :: ':' :: '"' :: (escapeChars p.category.data ++ '"' :: '}' :: [])))))))))))  =
      some (("title".data, Json.str p.title.data) :: (("description".data, Json.str p.description.data) :: (("price".data, Json.num (encodeInt p.price)) :: (("brand".data, Json.str p.brand.data) :: [("category".data, Json.str p.category.data)]))), []) :=
    parseMembers_step_comma (f + 5) "title".data ('"' :: (escapeChars p.title.data ++ '"' :: ',' :: '"' :: (escapeChars "description".data ++ '"' :: ':' :: '"' :: (escapeChars p.description.data ++ '"' :: ',' :: '"' :: (escapeChars "price".data ++ '"' :: ':' :: (encodeInt p.price ++ ',' :: '"' :: (escapeChars "brand".data ++ '"' :: ':' :: '"' :: (escapeChars p.brand.data ++ '"' :: ',' :: '"' :: (escapeChars "category".data ++ '"' :: ':' :: '"' :: (escapeChars p.category.data ++ '"' :: '}' :: [])))))))))) ('"' :: (escapeChars "description".data ++ '"' :: ':' :: '"' :: (escapeChars p.description.data ++ '"' :: ',' :: '"' :: (escapeChars "price".data ++ '"' :: ':' :: (encodeInt p.price ++ ',' :: '"' :: (escapeChars "brand".data ++ '"' :: ':' :: '"' :: (escapeChars p.brand.data ++ '"' :: ',' :: '"' :: (escapeChars "category".data ++ '"' :: ':' :: '"' :: (escapeChars p.category.data ++ '"' :: '}' :: [])))))))))
      (Json.str p.title.data) (("description".data, Json.str p.description.data) :: (("price".data, Json.num (encodeInt p.price)) :: (("brand".data, Json.str p.brand.data) :: [("category".data, Json.str p.category.data)]))) [] h1
      (by rw [skipWs_cons_of_not_ws _ _ (by decide)]; exact hm2)
  exact parseValue_obj_members (f + 6) (escapeChars "title".data ++ '"' :: ':' :: '"' :: (escapeChars p.title.data ++ '"' :: ',' :: '"' :: (escapeChars "description".data ++ '"' :: ':' :: '"' :: (escapeChars p.description.data ++ '"' :: ',' :: '"' :: (escapeChars "price".data ++ '"' :: ':' :: (encodeInt p.price ++ ',' :: '"' :: (escapeChars "brand".data ++ '"' :: ':' :: '"' :: (escapeChars p.brand.data ++ '"' :: ',' :: '"' :: (escapeChars "category".data ++ '"' :: ':' :: '"' :: (escapeChars p.category.data ++ '"' :: '}' :: []))))))))))
    (("title".data, Json.str p.title.data) :: (("description".data, Json.str p.description.data) :: (("price".data, Json.num (encodeInt p.price)) :: (("brand".data, Json.str p.brand.data) :: [("category".data, Json.str p.category.data)])))) [] hm1

theorem decodeVal_product (p : Product) :
    decodeVal (.obj [("title".data, .str p.title.data),
      ("description".data, .str p.description.data),
      ("price".data, .num (encodeInt p.price)),
      ("brand".data, .str p.brand.data),
      ("category".data, .str p.category.data)]) = .ok p := by
  obtain ⟨t, d, pr, b, ct⟩ := p
  simp only [decodeVal, List.foldl_cons, List.foldl_nil, decodeStep]
  rw [show matchKey "title".data = some PField.title from by decide,
    show matchKey "description".data = some PField.description from by decide,
    show matchKey "price".data = some PField.price from by decide,
    show matchKey "brand".data = some PField.brand from by decide,
    show matchKey "category".data = some PField.category from by decide]
  simp only [applyField]
  rw [decodeIntLit_encodeInt pr]

theorem decodeResponseBody_encodeProduct (p : Product) :
    decodeResponseBody (encodeProduct p) = .ok p := by
  unfold decodeResponseBody
  rw [show (encodeProduct p).length + 8 = ((encodeProduct p).length + 1) + 7 from by omega,
    parseValue_encodeProduct ((encodeProduct p).length + 1) p]
  exact decodeVal_product p

/-- C2: against an echo endpoint — a client answering status 201 with exactly
the request body — `AddProduct` returns the input product with no error: the
JSON serialization of a `Product` followed by the JSON decode is the
identity, for every `Product` value. -/
theorem addProduct_echo_roundtrip (s : ProductService) (p : Product)
    (hurl : containsCTL s.apiURL = false)
    (hcl : s.client = fun req => Except.ok ⟨201, req.body⟩) :
    AddProduct s p = (p, none) := by
  unfold AddProduct
  simp only [jsonMarshal, httpNewRequest, hurl, Bool.false_eq_true, if_false, hcl]
  rw [if_neg (by simp), show (setHeader ⟨"POST", s.apiURL, [], encodeProduct p⟩
    "Content-Type" "application/json").body = encodeProduct p from rfl,
    decodeResponseBody_encodeProduct p]

set_option maxRecDepth 40000 in
/-- Witness for C2 at a product exercising quotes, a newline, HTML-escaped
characters, a non-ASCII string and a negative price. -/
theorem addProduct_echo_roundtrip_witness :
    containsCTL "http://x" = false ∧
    AddProduct ⟨"http://x", fun req => Except.ok ⟨201, req.body⟩, jsonMarshal⟩
        ⟨"A \"B\"\n<x>&", "desc", -42, "Брэнд", "cat"⟩ =
      (⟨"A \"B\"\n<x>&", "desc", -42, "Брэнд", "cat"⟩, none) :=
  ⟨by decide, addProduct_echo_roundtrip _ _ (by decide) rfl⟩

/-- C8: the request `AddProduct` hands to the HTTP client is exactly a POST
to the configured URL with the single header `Content-Type: application/json`
and the serialized product as body — two clients that agree on that one
request make `AddProduct` agree — and that body scans as a JSON object whose
members are exactly the five `Product` keys with the input's field values. -/
theorem addProduct_request_shape (s : ProductService) (p : Product)
    (c₁ c₂ : HttpClient)
    (hurl : containsCTL s.apiURL = false)
    (hagree :
      c₁ (Request.mk "POST" s.apiURL [("Content-Type", "application/json")]
        (encodeProduct p)) =
      c₂ (Request.mk "POST" s.apiURL [("Content-Type", "application/json")]
        (encodeProduct p))) :
    AddProduct ⟨s.apiURL, c₁, s.marshal⟩ p = AddProduct ⟨s.apiURL, c₂, s.marshal⟩ p ∧
    parseValue ((encodeProduct p).length + 8) (encodeProduct p) =
      some (.obj [("title".data, .str p.title.data),
        ("description".data, .str p.description.data),
        ("price".data, .num (encodeInt p.price)),
        ("brand".data, .str p.brand.data),
        ("category".data, .str p.category.data)], []) := by
  constructor
  · unfold AddProduct
    simp only [jsonMarshal, httpNewRequest, hurl, Bool.false_eq_true, if_false]
    rw [show setHeader ⟨"POST", s.apiURL, [], encodeProduct p⟩
      "Content-Type" "application/json" =
      Request.mk "POST" s.apiURL [("Content-Type", "application/json")]
        (encodeProduct p) from rfl, hagree]
  · rw [show (encodeProduct p).length + 8 = ((encodeProduct p).length + 1) + 7 from by omega]
    exact parseValue_encodeProduct _ p

set_option maxRecDepth 40000 in
/-- Witness for C8 at a concrete product and client. -/
theorem addProduct_request_shape_witness :
    containsCTL "http://x" = false ∧
    (AddProduct ⟨"http://x", fun _ => Except.error "e", jsonMarshal⟩ ⟨"a", "b", 5, "c", "d"⟩ =
      AddProduct ⟨"http://x", fun _ => Except.error "e", jsonMarshal⟩ ⟨"a", "b", 5, "c", "d"⟩ ∧
    parseValue ((encodeProduct ⟨"a", "b", 5, "c", "d"⟩).length + 8)
        (encodeProduct ⟨"a", "b", 5, "c", "d"⟩) =
      some (.obj [("title".data, .str "a".data),
        ("description".data, .str "b".data),
        ("price".data, .num (encodeInt 5)),
        ("brand".data, .str "c".data),
        ("category".data, .str "d".data)], [])) :=
  ⟨by decide, addProduct_request_shape
    ⟨"http://x", fun _ => Except.error "e", jsonMarshal⟩ ⟨"a", "b", 5, "c", "d"⟩
    (fun _ => Except.error "e") (fun _ => Except.error "e") (by decide) rfl⟩

/-! ## Fuel monotonicity and input extension of the scanner -/

theorem consFst_none (x : Char) : consFst x none = none := rfl

theorem consFst_some (x : Char) (a b : List Char) :
    consFst x (some (a, b)) = some (x :: a, b) := rfl

theorem consFst_eq_some (x : Char) (o : Option (List Char × List Char)) (s r : List Char) :
    consFst x o = some (s, r) ↔ ∃ s', o = some (s', r) ∧ s = x :: s' := by
  cases o with
  | none =>
    rw [consFst_none]
    constructor
    · intro hh; cases hh
    · rintro ⟨s', h1, h2⟩; cases h1
  | some pr =>
    obtain ⟨a, b⟩ := pr
    rw [consFst_some]
    constructor
    · intro hh
      simp only [Option.some.injEq, Prod.mk.injEq] at hh
      exact ⟨a, by rw [hh.2], hh.1.symm⟩
    · rintro ⟨s', h1, h2⟩
      simp only [Option.some.injEq, Prod.mk.injEq] at h1
      subst h2
      rw [h1.1, h1.2]

theorem parseStringBody_mono (fl : Nat) (i : List Char) :
    ∀ s r, parseStringBody fl i = some (s, r) → parseStringBody (fl + 1) i = some (s, r) := by
  induction fl, i using parseStringBody.induct
  all_goals intro s r h
  all_goals rw [parseStringBody.eq_def] at h ⊢
  all_goals dsimp only at h ⊢
  all_goals try simp at h ⊢
  all_goals try first
  | exact h
  | cases h
  | simp_all
  all_goals (rename_i ih
             rw [consFst_eq_some] at h ⊢
             obtain ⟨s', hrec, rfl⟩ := h
             exact ⟨s', ih _ _ hrec, rfl⟩)

theorem parseStringBody_nil (fl : Nat) : parseStringBody fl [] = none := by
  cases fl <;> rfl

theorem parseStringBody_u_short0 (fl : Nat) :
    parseStringBody fl ['\\', 'u'] = none := by
  cases fl <;> rfl

theorem parseStringBody_u_short1 (fl : Nat) (a : Char) :
    parseStringBody fl ['\\', 'u', a] = none := by
  cases fl <;> rfl

theorem parseStringBody_u_short2 (fl : Nat) (a b : Char) :
    parseStringBody fl ['\\', 'u', a, b] = none := by
  cases fl <;> rfl

theorem parseStringBody_u_short3 (fl : Nat) (a b c : Char) :
    parseStringBody fl ['\\', 'u', a, b, c] = none := by
  cases fl <;> rfl

theorem parseStringBody_backslash_only (fl : Nat) :
    parseStringBody fl ['\\'] = none := by
  cases fl <;> rfl

theorem unescapeU_high_head_not_backslash (code : Nat)
    (hhi : 0xD800 ≤ code ∧ code < 0xDC00) (e1 : Char) (he : ¬e1 = '\\')
    (rest : List Char) :
    unescapeU code (e1 :: rest) = (replacementChar, e1 :: rest) := by
  unfold unescapeU
  rw [if_pos hhi]
  rcases rest with _ | ⟨a, _ | ⟨b, _ | ⟨c, _ | ⟨d, _ | ⟨e, rest⟩⟩⟩⟩⟩ <;>
    first
    | rfl
    | (dsimp only; rw [if_neg (by simp [he])])

theorem unescapeU_high_head2_not_u (code : Nat)
    (hhi : 0xD800 ≤ code ∧ code < 0xDC00) (e1 e2 : Char) (he : ¬e2 = 'u')
    (rest : List Char) :
    unescapeU code (e1 :: e2 :: rest) = (replacementChar, e1 :: e2 :: rest) := by
  unfold unescapeU
  rw [if_pos hhi]
  rcases rest with _ | ⟨a, _ | ⟨b, _ | ⟨c, _ | ⟨d, rest⟩⟩⟩⟩ <;>
    first
    | rfl
    | (dsimp only; rw [if_neg (by simp [he])])

theorem unescapeU_ext (code : Nat) (r2 t : List Char) (f : Nat) (s' r : List Char)
    (hcont : parseStringBody f (unescapeU code r2).2 = some (s', r)) :
    (unescapeU code (r2 ++ t)).1 = (unescapeU code r2).1 ∧
    (unescapeU code (r2 ++ t)).2 = (unescapeU code r2).2 ++ t := by
  by_cases hhi : 0xD800 ≤ code ∧ code < 0xDC00
  · rcases r2 with _ | ⟨e1, r2'⟩
    · rw [show unescapeU code [] = (replacementChar, []) from by
        unfold unescapeU; rw [if_pos hhi]] at hcont
      rw [parseStringBody_nil] at hcont
      cases hcont
    · by_cases he1 : e1 = '\\'
      · subst he1
        rcases r2' with _ | ⟨e2, r2''⟩
        · rw [show unescapeU code ['\\'] = (replacementChar, ['\\']) from by
            unfold unescapeU; rw [if_pos hhi]] at hcont
          rw [parseStringBody_backslash_only] at hcont
          cases hcont
        · by_cases he2 : e2 = 'u'
          · subst he2
            rcases r2'' with _ | ⟨g1, _ | ⟨g2, _ | ⟨g3, _ | ⟨g4, r3⟩⟩⟩⟩
            · rw [show unescapeU code ['\\', 'u'] = (replacementChar, ['\\', 'u']) from by
                unfold unescapeU; rw [if_pos hhi]] at hcont
              rw [parseStringBody_u_short0] at hcont
              cases hcont
            · rw [show unescapeU code ['\\', 'u', g1] = (replacementChar, ['\\', 'u', g1]) from by
                unfold unescapeU; rw [if_pos hhi]] at hcont
              rw [parseStringBody_u_short1] at hcont
              cases hcont
            · rw [show unescapeU code ['\\', 'u', g1, g2] =
                  (replacementChar, ['\\', 'u', g1, g2]) from by
                unfold unescapeU; rw [if_pos hhi]] at hcont
              rw [parseStringBody_u_short2] at hcont
              cases hcont
            · rw [show unescapeU code ['\\', 'u', g1, g2, g3] =
                  (replacementChar, ['\\', 'u', g1, g2, g3]) from by
                unfold unescapeU; rw [if_pos hhi]] at hcont
              rw [parseStringBody_u_short3] at hcont
              cases hcont
            · -- full 6-character prefix, both sides take the same branch
              clear hcont
              unfold unescapeU
              rw [if_pos hhi, if_pos hhi]
              dsimp only [List.cons_append]
              rw [if_pos ⟨rfl, rfl⟩, if_pos ⟨rfl, rfl⟩]
              cases hg1 : hexVal? g1 <;> cases hg2 : hexVal? g2 <;>
                cases hg3 : hexVal? g3 <;> cases hg4 : hexVal? g4 <;>
                dsimp only <;>
                try exact ⟨rfl, rfl⟩
              rename_i a2 b2 c2 d2
              by_cases hlo : 0xDC00 ≤ ((a2 * 16 + b2) * 16 + c2) * 16 + d2 ∧
                  ((a2 * 16 + b2) * 16 + c2) * 16 + d2 < 0xE000
              · rw [if_pos hlo, if_pos hlo]
                exact ⟨rfl, rfl⟩
              · rw [if_neg hlo, if_neg hlo]
                exact ⟨rfl, rfl⟩
          · rw [unescapeU_high_head2_not_u code hhi '\\' e2 he2 r2'',
              show ('\\' :: e2 :: r2'') ++ t = '\\' :: e2 :: (r2'' ++ t) from rfl,
              unescapeU_high_head2_not_u code hhi '\\' e2 he2 (r2'' ++ t)]
            exact ⟨rfl, rfl⟩
      · rw [unescapeU_high_head_not_backslash code hhi e1 he1 r2',
          show (e1 :: r2') ++ t = e1 :: (r2' ++ t) from rfl,
          unescapeU_high_head_not_backslash code hhi e1 he1 (r2' ++ t)]
        exact ⟨rfl, rfl⟩
  · unfold unescapeU
    rw [if_neg hhi, if_neg hhi]
    by_cases hlo : 0xDC00 ≤ code ∧ code < 0xE000
    · rw [if_pos hlo, if_pos hlo]
      exact ⟨rfl, rfl⟩
    · rw [if_neg hlo, if_neg hlo]
      exact ⟨rfl, rfl⟩

theorem parseStringBody_ext (fl : Nat) (i : List Char) :
    ∀ s r t, parseStringBody fl i = some (s, r) →
      parseStringBody fl (i ++ t) = some (s, r ++ t) := by
  induction fl, i using parseStringBody.induct
  all_goals intro s r t h
  all_goals try simp only [List.cons_append]
  all_goals rw [parseStringBody.eq_def] at h ⊢
  all_goals dsimp only at h ⊢
  all_goals try simp at h ⊢
  all_goals try simp_all
  case case13 =>
    rename_i ih
    rw [consFst_eq_some] at h
    obtain ⟨s', hrec, rfl⟩ := h
    obtain ⟨hu1, hu2⟩ := unescapeU_ext _ _ t _ _ _ hrec
    rw [hu1, hu2, consFst_eq_some]
    exact ⟨s', ih _ _ t hrec, rfl⟩
  all_goals (rename_i ih
             rw [consFst_eq_some] at h ⊢
             obtain ⟨s', hrec, rfl⟩ := h
             exact ⟨s', ih _ _ t hrec, rfl⟩)

theorem skipWs_ext (i t : List Char) (c : Char) (r : List Char)
    (h : skipWs i = c :: r) : skipWs (i ++ t) = c :: (r ++ t) := by
  induction i with
  | nil => exact absurd h (by simp [skipWs])
  | cons a i' ih =>
    simp only [skipWs, List.dropWhile_cons, List.cons_append] at h ⊢
    by_cases ha : isWs a = true
    · simp only [ha, if_true] at h ⊢
      exact ih h
    · simp only [ha, if_false] at h ⊢
      injection h with h1 h2
      subst h1
      subst h2
      rfl

theorem spanDigit_ext (p : Char → Bool) (l t : List Char) (c : Char) (r : List Char)
    (h : l.dropWhile p = c :: r) :
    (l ++ t).takeWhile p = l.takeWhile p ∧
    (l ++ t).dropWhile p = c :: (r ++ t) := by
  induction l with
  | nil => exact absurd h (by simp)
  | cons a l' ih =>
    simp only [List.dropWhile_cons, List.takeWhile_cons, List.cons_append] at h ⊢
    by_cases ha : p a = true
    · simp only [ha, if_true] at h ⊢
      obtain ⟨ih1, ih2⟩ := ih h
      exact ⟨by rw [ih1], ih2⟩
    · simp only [ha, if_false] at h ⊢
      injection h with h1 h2
      subst h1
      subst h2
      exact ⟨rfl, rfl⟩

theorem parseFrac_ext (l t fr r2 : List Char)
    (h : parseFrac l = some (fr, r2)) (hne : r2 ≠ []) :
    parseFrac (l ++ t) = some (fr, r2 ++ t) := by
  cases l with
  | nil =>
    simp only [parseFrac] at h
    injection h with h1
    injection h1 with h2 h3
    exact absurd h3.symm hne
  | cons c rest =>
    simp only [parseFrac, List.cons_append] at h ⊢
    by_cases hc : c = '.'
    · simp only [hc, if_true, if_pos] at h ⊢
      cases hdw : rest.dropWhile Char.isDigit with
      | nil =>
        rw [hdw] at h
        by_cases hds : rest.takeWhile Char.isDigit = []
        · rw [if_pos hds] at h; cases h
        · rw [if_neg hds] at h
          injection h with h1
          injection h1 with h2 h3
          exact absurd h3.symm hne
      | cons c2 r' =>
        obtain ⟨hs1, hs2⟩ := spanDigit_ext Char.isDigit rest t c2 r' hdw
        rw [hdw] at h
        rw [hs1, hs2]
        by_cases hds : rest.takeWhile Char.isDigit = []
        · rw [if_pos hds] at h; cases h
        · rw [if_neg hds] at h ⊢
          injection h with h1
          injection h1 with h2 h3
          subst h2
          rw [← h3]
          rfl
    · simp only [hc, if_false] at h ⊢
      injection h with h1
      injection h1 with h2 h3
      subst h2
      rw [← h3]
      rfl

theorem parseExp_ext (l t ex r3 : List Char)
    (h : parseExp l = some (ex, r3)) (hne : r3 ≠ []) :
    parseExp (l ++ t) = some (ex, r3 ++ t) := by
  cases l with
  | nil =>
    simp only [parseExp] at h
    injection h with h1
    injection h1 with h2 h3
    exact absurd h3.symm hne
  | cons c rest =>
    simp only [parseExp, List.cons_append] at h ⊢
    by_cases hc : c = 'e' ∨ c = 'E'
    · rw [if_pos hc] at h ⊢
      cases rest with
      | nil =>
        dsimp only at h
        cases h
      | cons s0 rest' =>
        dsimp only [List.cons_append] at h ⊢
        by_cases hs : s0 = '+' ∨ s0 = '-'
        · rw [if_pos hs] at h ⊢
          dsimp only at h ⊢
          cases hdw : rest'.dropWhile Char.isDigit with
          | nil =>
            rw [hdw] at h
            by_cases hds : rest'.takeWhile Char.isDigit = []
            · rw [if_pos hds] at h; cases h
            · rw [if_neg hds] at h
              injection h with h1
              injection h1 with h2 h3
              exact absurd h3.symm hne
          | cons c2 r' =>
            obtain ⟨hs1, hs2⟩ := spanDigit_ext Char.isDigit rest' t c2 r' hdw
            rw [hdw] at h
            rw [hs1, hs2]
            by_cases hds : rest'.takeWhile Char.isDigit = []
            · rw [if_pos hds] at h; cases h
            · rw [if_neg hds] at h ⊢
              injection h with h1
              injection h1 with h2 h3
              subst h2
              rw [← h3]
              rfl
        · rw [if_neg hs] at h ⊢
          dsimp only at h ⊢
          cases hdw : (s0 :: rest').dropWhile Char.isDigit with
          | nil =>
            rw [hdw] at h
            by_cases hds : (s0 :: rest').takeWhile Char.isDigit = []
            · rw [if_pos hds] at h; cases h
            · rw [if_neg hds] at h
              injection h with h1
              injection h1 with h2 h3
              exact absurd h3.symm hne
          | cons c2 r' =>
            obtain ⟨hs1, hs2⟩ := spanDigit_ext Char.isDigit (s0 :: rest') t c2 r' hdw
            simp only [List.cons_append] at hs1 hs2
            rw [hdw] at h
            rw [hs1, hs2]
            by_cases hds : (s0 :: rest').takeWhile Char.isDigit = []
            · rw [if_pos hds] at h; cases h
            · rw [if_neg hds] at h ⊢
              injection h with h1
              injection h1 with h2 h3
              subst h2
              rw [← h3]
              rfl
    · rw [if_neg hc] at h ⊢
      injection h with h1
      injection h1 with h2 h3
      subst h2
      rw [← h3]
      rfl

theorem parseNumber_ext (input t lex r : List Char)
    (h : parseNumber input = some (lex, r)) (hne : r ≠ []) :
    parseNumber (input ++ t) = some (lex, r ++ t) := by
  cases input with
  | nil => simp [parseNumber] at h
  | cons c rest =>
    simp only [parseNumber, List.cons_append] at h ⊢
    by_cases hc : c = '-'
    · rw [if_pos hc] at h ⊢
      dsimp only at h ⊢
      cases hds : rest.takeWhile Char.isDigit with
      | nil =>
        rw [hds, if_pos rfl] at h
        cases h
      | cons d0 ds' =>
        rw [hds, if_neg (by simp)] at h
        cases hlz : leadingZeroBad (d0 :: ds') with
        | true => rw [hlz] at h; simp at h
        | false =>
          rw [hlz] at h
          simp only [Bool.false_eq_true, if_false] at h
          cases hdw : rest.dropWhile Char.isDigit with
          | nil =>
            rw [hdw] at h
            simp only [parseFrac] at h
            simp only [parseExp] at h
            injection h with h1
            injection h1 with hlex hr
            exact absurd hr.symm hne
          | cons w1 w2 =>
            obtain ⟨hs1, hs2⟩ := spanDigit_ext Char.isDigit rest t w1 w2 hdw
            try simp only [List.cons_append] at hs1 hs2
            rw [hs1, hs2, hds, if_neg (by simp), hlz]
            simp only [Bool.false_eq_true, if_false]
            rw [hdw] at h
            cases hf : parseFrac (w1 :: w2) with
            | none => rw [hf] at h; cases h
            | some pr =>
              obtain ⟨fr, r2⟩ := pr
              rw [hf] at h
              dsimp only at h
              cases he : parseExp r2 with
              | none => rw [he] at h; cases h
              | some pe =>
                obtain ⟨ex, r3⟩ := pe
                rw [he] at h
                dsimp only at h
                injection h with h1
                injection h1 with hlex hr
                have hr3ne : r3 ≠ [] := by rw [hr]; exact hne
                have hr2ne : r2 ≠ [] := by
                  intro hr2
                  subst hr2
                  simp only [parseExp] at he
                  injection he with he1
                  injection he1 with he2 he3
                  exact hr3ne he3.symm
                have hfe := parseFrac_ext (w1 :: w2) t fr r2 hf hr2ne
                rw [List.cons_append] at hfe
                rw [hfe]
                dsimp only
                rw [parseExp_ext r2 t ex r3 he hr3ne]
                dsimp only
                rw [hlex, hr]
    · rw [if_neg hc] at h ⊢
      dsimp only at h ⊢
      cases hds : (c :: rest).takeWhile Char.isDigit with
      | nil =>
        rw [hds, if_pos rfl] at h
        cases h
      | cons d0 ds' =>
        rw [hds, if_neg (by simp)] at h
        cases hlz : leadingZeroBad (d0 :: ds') with
        | true => rw [hlz] at h; simp at h
        | false =>
          rw [hlz] at h
          simp only [Bool.false_eq_true, if_false] at h
          cases hdw : (c :: rest).dropWhile Char.isDigit with
          | nil =>
            rw [hdw] at h
            simp only [parseFrac] at h
            simp only [parseExp] at h
            injection h with h1
            injection h1 with hlex hr
            exact absurd hr.symm hne
          | cons w1 w2 =>
            obtain ⟨hs1, hs2⟩ := spanDigit_ext Char.isDigit (c :: rest) t w1 w2 hdw
            try simp only [List.cons_append] at hs1 hs2
            rw [hs1, hs2, hds, if_neg (by simp), hlz]
            simp only [Bool.false_eq_true, if_false]
            rw [hdw] at h
            cases hf : parseFrac (w1 :: w2) with
            | none => rw [hf] at h; cases h
            | some pr =>
              obtain ⟨fr, r2⟩ := pr
              rw [hf] at h
              dsimp only at h
              cases he : parseExp r2 with
              | none => rw [he] at h; cases h
              | some pe =>
                obtain ⟨ex, r3⟩ := pe
                rw [he] at h
                dsimp only at h
                injection h with h1
                injection h1 with hlex hr
                have hr3ne : r3 ≠ [] := by rw [hr]; exact hne
                have hr2ne : r2 ≠ [] := by
                  intro hr2
                  subst hr2
                  simp only [parseExp] at he
                  injection he with he1
                  injection he1 with he2 he3
                  exact hr3ne he3.symm
                have hfe := parseFrac_ext (w1 :: w2) t fr r2 hf hr2ne
                rw [List.cons_append] at hfe
                rw [hfe]
                dsimp only
                rw [parseExp_ext r2 t ex r3 he hr3ne]
                dsimp only
                rw [hlex, hr]

theorem parse_mono (f : Nat) :
    (∀ i v r, parseValue f i = some (v, r) → parseValue (f + 1) i = some (v, r)) ∧
    (∀ i ms r, parseMembers f i = some (ms, r) → parseMembers (f + 1) i = some (ms, r)) ∧
    (∀ i vs r, parseElements f i = some (vs, r) → parseElements (f + 1) i = some (vs, r)) := by
  induction f with
  | zero =>
    refine ⟨?_, ?_, ?_⟩ <;> intro i x r h <;>
      simp only [parseValue, parseMembers, parseElements] at h <;> cases h
  | succ f ih =>
    obtain ⟨ihv, ihm, ihe⟩ := ih
    refine ⟨?_, ?_, ?_⟩
    · intro i v r h
      rw [parseValue.eq_def] at h ⊢
      dsimp only at h ⊢
      cases hsw : skipWs i with
      | nil => rw [hsw] at h; cases h
      | cons c rest =>
        rw [hsw] at h
        dsimp only at h ⊢
        by_cases hbrace : c = '{'
        · rw [if_pos hbrace] at h ⊢
          cases hsw2 : skipWs rest with
          | nil => rw [hsw2] at h; cases h
          | cons d r2 =>
            rw [hsw2] at h
            dsimp only at h ⊢
            by_cases hcb : d = '}'
            · rw [if_pos hcb] at h ⊢
              exact h
            · rw [if_neg hcb] at h ⊢
              cases hm : parseMembers f (d :: r2) with
              | none => rw [hm] at h; cases h
              | some pr =>
                obtain ⟨ms, r3⟩ := pr
                rw [hm] at h
                rw [ihm _ _ _ hm]
                exact h
        · by_cases hbrack : c = '['
          · rw [if_neg hbrace, if_pos hbrack] at h ⊢
            cases hsw2 : skipWs rest with
            | nil => rw [hsw2] at h; cases h
            | cons d r2 =>
              rw [hsw2] at h
              dsimp only at h ⊢
              by_cases hcb : d = ']'
              · rw [if_pos hcb] at h ⊢
                exact h
              · rw [if_neg hcb] at h ⊢
                cases he : parseElements f (d :: r2) with
                | none => rw [he] at h; cases h
                | some pr =>
                  obtain ⟨vs, r3⟩ := pr
                  rw [he] at h
                  rw [ihe _ _ _ he]
                  exact h
          · rw [if_neg hbrace, if_neg hbrack] at h ⊢
            exact h
    · intro i ms r h
      rw [parseMembers.eq_def] at h ⊢
      dsimp only at h ⊢
      cases i with
      | nil => cases h
      | cons c rest =>
        dsimp only at h ⊢
        by_cases hq : c = '"'
        · rw [if_pos hq] at h ⊢
          cases hsb : parseStringBody (rest.length + 1) rest with
          | none => rw [hsb] at h; cases h
          | some pr =>
            obtain ⟨k, r1⟩ := pr
            rw [hsb] at h
            dsimp only at h ⊢
            cases hsw : skipWs r1 with
            | nil => rw [hsw] at h; cases h
            | cons d r2 =>
              rw [hsw] at h
              dsimp only at h ⊢
              by_cases hcol : d = ':'
              · rw [if_pos hcol] at h ⊢
                cases hv : parseValue f r2 with
                | none => rw [hv] at h; cases h
                | some pr2 =>
                  obtain ⟨v, r3⟩ := pr2
                  rw [hv] at h
                  rw [ihv _ _ _ hv]
                  dsimp only at h ⊢
                  cases hsw2 : skipWs r3 with
                  | nil => rw [hsw2] at h; cases h
                  | cons d2 r4 =>
                    rw [hsw2] at h
                    dsimp only at h ⊢
                    by_cases hcm : d2 = ','
                    · rw [if_pos hcm] at h ⊢
                      cases hm2 : parseMembers f (skipWs r4) with
                      | none => rw [hm2] at h; cases h
                      | some pr3 =>
                        obtain ⟨ms2, r5⟩ := pr3
                        rw [hm2] at h
                        rw [ihm _ _ _ hm2]
                        exact h
                    · by_cases hcb : d2 = '}'
                      · rw [if_neg hcm, if_pos hcb] at h ⊢
                        exact h
                      · rw [if_neg hcm, if_neg hcb] at h ⊢
                        exact h
              · rw [if_neg hcol] at h ⊢
                exact h
        · rw [if_neg hq] at h ⊢
          exact h
    · intro i vs r h
      rw [parseElements.eq_def] at h ⊢
      dsimp only at h ⊢
      cases hv : parseValue f i with
      | none => rw [hv] at h; cases h
      | some pr =>
        obtain ⟨v, r1⟩ := pr
        rw [hv] at h
        rw [ihv _ _ _ hv]
        dsimp only at h ⊢
        cases hsw : skipWs r1 with
        | nil => rw [hsw] at h; cases h
        | cons d r2 =>
          rw [hsw] at h
          dsimp only at h ⊢
          by_cases hcm : d = ','
          · rw [if_pos hcm] at h ⊢
            cases he2 : parseElements f r2 with
            | none => rw [he2] at h; cases h
            | some pr2 =>
              obtain ⟨vs2, r3⟩ := pr2
              rw [he2] at h
              rw [ihe _ _ _ he2]
              exact h
          · by_cases hcb : d = ']'
            · rw [if_neg hcm, if_pos hcb] at h ⊢
              exact h
            · rw [if_neg hcm, if_neg hcb] at h ⊢
              exact h

theorem parseStringBody_mono_le (fl fl' : Nat) (hle : fl ≤ fl') (i : List Char)
    (s r : List Char) (h : parseStringBody fl i = some (s, r)) :
    parseStringBody fl' i = some (s, r) := by
  induction fl', hle using Nat.le_induction with
  | base => exact h
  | succ n hn ih => exact parseStringBody_mono n i s r ih

theorem parseValue_mono_le (f f' : Nat) (hle : f ≤ f') (i : List Char)
    (v : Json) (r : List Char) (h : parseValue f i = some (v, r)) :
    parseValue f' i = some (v, r) := by
  induction f', hle using Nat.le_induction with
  | base => exact h
  | succ n hn ih => exact (parse_mono n).1 i v r ih

theorem parseMembers_nil (f : Nat) : parseMembers f [] = none := by
  cases f <;> rfl

theorem parse_ext (f : Nat) :
    (∀ i v r t, parseValue f i = some (v, r) → (Json.isNum v = false ∨ r ≠ []) →
      parseValue f (i ++ t) = some (v, r ++ t)) ∧
    (∀ i ms r t, parseMembers f i = some (ms, r) →
      parseMembers f (i ++ t) = some (ms, r ++ t)) ∧
    (∀ i vs r t, parseElements f i = some (vs, r) →
      parseElements f (i ++ t) = some (vs, r ++ t)) := by
  induction f with
  | zero =>
    refine ⟨?_, ?_, ?_⟩ <;> intro i x r t h <;>
      simp only [parseValue, parseMembers, parseElements] at h <;> cases h
  | succ f ih =>
    obtain ⟨ihv, ihm, ihe⟩ := ih
    refine ⟨?_, ?_, ?_⟩
    · intro i v r t h hside
      rw [parseValue.eq_def] at h
      rw [parseValue.eq_def]
      dsimp only at h ⊢
      cases hsw : skipWs i with
      | nil => rw [hsw] at h; cases h
      | cons c rest =>
        rw [hsw] at h
        dsimp only at h
        rw [skipWs_ext i t c rest hsw]
        dsimp only
        by_cases hbrace : c = '{'
        · rw [if_pos hbrace] at h ⊢
          cases hsw2 : skipWs rest with
          | nil => rw [hsw2] at h; cases h
          | cons d r2 =>
            rw [hsw2] at h
            dsimp only at h
            rw [skipWs_ext rest t d r2 hsw2]
            dsimp only
            by_cases hcb : d = '}'
            · rw [if_pos hcb] at h ⊢
              injection h with h1
              injection h1 with hv hr
              subst hv
              subst hr
              rfl
            · rw [if_neg hcb] at h ⊢
              cases hm : parseMembers f (d :: r2) with
              | none => rw [hm] at h; cases h
              | some pr =>
                obtain ⟨ms, r3⟩ := pr
                rw [hm] at h
                dsimp only at h
                have hmx := ihm (d :: r2) ms r3 t hm
                rw [List.cons_append] at hmx
                rw [hmx]
                dsimp only
                injection h with h1
                injection h1 with hv hr
                subst hv
                subst hr
                rfl
        · by_cases hbrack : c = '['
          · rw [if_neg hbrace, if_pos hbrack] at h ⊢
            cases hsw2 : skipWs rest with
            | nil => rw [hsw2] at h; cases h
            | cons d r2 =>
              rw [hsw2] at h
              dsimp only at h
              rw [skipWs_ext rest t d r2 hsw2]
              dsimp only
              by_cases hcb : d = ']'
              · rw [if_pos hcb] at h ⊢
                injection h with h1
                injection h1 with hv hr
                subst hv
                subst hr
                rfl
              · rw [if_neg hcb] at h ⊢
                cases he2 : parseElements f (d :: r2) with
                | none => rw [he2] at h; cases h
                | some pr =>
                  obtain ⟨vs, r3⟩ := pr
                  rw [he2] at h
                  dsimp only at h
                  have hex := ihe (d :: r2) vs r3 t he2
                  rw [List.cons_append] at hex
                  rw [hex]
                  dsimp only
                  injection h with h1
                  injection h1 with hv hr
                  subst hv
                  subst hr
                  rfl
          · by_cases hq : c = '"'
            · rw [if_neg hbrace, if_neg hbrack, if_pos hq] at h ⊢
              cases hsb : parseStringBody (rest.length + 1) rest with
              | none => rw [hsb] at h; cases h
              | some pr =>
                obtain ⟨s2, r2⟩ := pr
                rw [hsb] at h
                dsimp only at h
                have hext := parseStringBody_ext (rest.length + 1) rest s2 r2 t hsb
                have hmono := parseStringBody_mono_le (rest.length + 1)
                  ((rest ++ t).length + 1)
                  (by simp only [List.length_append]; omega)
                  (rest ++ t) s2 (r2 ++ t) hext
                rw [hmono]
                dsimp only
                injection h with h1
                injection h1 with hv hr
                subst hv
                subst hr
                rfl
            · by_cases hlt : c = 't'
              · rw [if_neg hbrace, if_neg hbrack, if_neg hq, if_pos hlt] at h ⊢
                rcases rest with _ | ⟨c1, _ | ⟨c2, _ | ⟨c3, r2⟩⟩⟩
                · cases h
                · cases h
                · cases h
                · dsimp only [List.cons_append] at h ⊢
                  by_cases hcond : c1 = 'r' ∧ c2 = 'u' ∧ c3 = 'e'
                  · rw [if_pos hcond] at h ⊢
                    injection h with h1
                    injection h1 with hv hr
                    subst hv
                    subst hr
                    rfl
                  · rw [if_neg hcond] at h
                    cases h
              · by_cases hlf : c = 'f'
                · rw [if_neg hbrace, if_neg hbrack, if_neg hq, if_neg hlt, if_pos hlf] at h ⊢
                  rcases rest with _ | ⟨c1, _ | ⟨c2, _ | ⟨c3, _ | ⟨c4, r2⟩⟩⟩⟩
                  · cases h
                  · cases h
                  · cases h
                  · cases h
                  · dsimp only [List.cons_append] at h ⊢
                    by_cases hcond : c1 = 'a' ∧ c2 = 'l' ∧ c3 = 's' ∧ c4 = 'e'
                    · rw [if_pos hcond] at h ⊢
                      injection h with h1
                      injection h1 with hv hr
                      subst hv
                      subst hr
                      rfl
                    · rw [if_neg hcond] at h
                      cases h
                · by_cases hln : c = 'n'
                  · rw [if_neg hbrace, if_neg hbrack, if_neg hq, if_neg hlt, if_neg hlf,
                      if_pos hln] at h ⊢
                    rcases rest with _ | ⟨c1, _ | ⟨c2, _ | ⟨c3, r2⟩⟩⟩
                    · cases h
                    · cases h
                    · cases h
                    · dsimp only [List.cons_append] at h ⊢
                      by_cases hcond : c1 = 'u' ∧ c2 = 'l' ∧ c3 = 'l'
                      · rw [if_pos hcond] at h ⊢
                        injection h with h1
                        injection h1 with hv hr
                        subst hv
                        subst hr
                        rfl
                      · rw [if_neg hcond] at h
                        cases h
                  · by_cases hnum : c = '-' ∨ c.isDigit = true
                    · rw [if_neg hbrace, if_neg hbrack, if_neg hq, if_neg hlt, if_neg hlf,
                        if_neg hln, if_pos hnum] at h ⊢
                      cases hn : parseNumber (c :: rest) with
                      | none => rw [hn] at h; cases h
                      | some pr =>
                        obtain ⟨lex, r2⟩ := pr
                        rw [hn] at h
                        dsimp only at h
                        injection h with h1
                        injection h1 with hv hr
                        have hrne : r2 ≠ [] := by
                          rcases hside with hs1 | hs1
                          · rw [← hv] at hs1
                            simp [Json.isNum] at hs1
                          · rw [← hr] at hs1
                            exact hs1
                        have hnx := parseNumber_ext (c :: rest) t lex r2 hn hrne
                        rw [List.cons_append] at hnx
                        rw [hnx]
                        dsimp only
                        rw [hv, hr]
                    · rw [if_neg hbrace, if_neg hbrack, if_neg hq, if_neg hlt, if_neg hlf,
                        if_neg hln, if_neg hnum] at h
                      cases h
    · intro i ms r t h
      rw [parseMembers.eq_def] at h
      rw [parseMembers.eq_def]
      dsimp only at h ⊢
      cases i with
      | nil => cases h
      | cons c rest =>
        dsimp only [List.cons_append] at h ⊢
        by_cases hq : c = '"'
        · rw [if_pos hq] at h ⊢
          cases hsb : parseStringBody (rest.length + 1) rest with
          | none => rw [hsb] at h; cases h
          | some pr =>
            obtain ⟨k, r1⟩ := pr
            rw [hsb] at h
            dsimp only at h
            have hext := parseStringBody_ext (rest.length + 1) rest k r1 t hsb
            have hmono := parseStringBody_mono_le (rest.length + 1)
              ((rest ++ t).length + 1)
              (by simp only [List.length_append]; omega)
              (rest ++ t) k (r1 ++ t) hext
            rw [hmono]
            dsimp only
            cases hsw : skipWs r1 with
            | nil => rw [hsw] at h; cases h
            | cons d r2 =>
              rw [hsw] at h
              dsimp only at h
              rw [skipWs_ext r1 t d r2 hsw]
              dsimp only
              by_cases hcol : d = ':'
              · rw [if_pos hcol] at h ⊢
                cases hv : parseValue f r2 with
                | none => rw [hv] at h; cases h
                | some pr2 =>
                  obtain ⟨v, r3⟩ := pr2
                  rw [hv] at h
                  dsimp only at h
                  cases hsw2 : skipWs r3 with
                  | nil => rw [hsw2] at h; cases h
                  | cons d2 r4 =>
                    rw [hsw2] at h
                    dsimp only at h
                    have hr3ne : r3 ≠ [] := by
                      intro h0
                      subst h0
                      simp [skipWs] at hsw2
                    have hvx := ihv r2 v r3 t hv (Or.inr hr3ne)
                    rw [hvx]
                    dsimp only
                    rw [skipWs_ext r3 t d2 r4 hsw2]
                    dsimp only
                    by_cases hcm : d2 = ','
                    · rw [if_pos hcm] at h ⊢
                      cases hsw4 : skipWs r4 with
                      | nil =>
                        rw [hsw4, parseMembers_nil] at h
                        cases h
                      | cons e r6 =>
                        rw [hsw4] at h
                        rw [skipWs_ext r4 t e r6 hsw4]
                        cases hm2 : parseMembers f (e :: r6) with
                        | none => rw [hm2] at h; cases h
                        | some pr3 =>
                          obtain ⟨ms2, r5⟩ := pr3
                          rw [hm2] at h
                          dsimp only at h
                          have hmx := ihm (e :: r6) ms2 r5 t hm2
                          rw [List.cons_append] at hmx
                          rw [hmx]
                          dsimp only
                          injection h with h1
                          injection h1 with hms hr
                          subst hms
                          subst hr
                          rfl
                    · by_cases hcb : d2 = '}'
                      · rw [if_neg hcm, if_pos hcb] at h ⊢
                        injection h with h1
                        injection h1 with hms hr
                        subst hms
                        subst hr
                        rfl
                      · rw [if_neg hcm, if_neg hcb] at h
                        cases h
              · rw [if_neg hcol] at h
                cases h
        · rw [if_neg hq] at h
          cases h
    · intro i vs r t h
      rw [parseElements.eq_def] at h
      rw [parseElements.eq_def]
      dsimp only at h ⊢
      cases hv : parseValue f i with
      | none => rw [hv] at h; cases h
      | some pr =>
        obtain ⟨v, r1⟩ := pr
        rw [hv] at h
        dsimp only at h
        cases hsw : skipWs r1 with
        | nil => rw [hsw] at h; cases h
        | cons d r2 =>
          rw [hsw] at h
          dsimp only at h
          have hr1ne : r1 ≠ [] := by
            intro h0
            subst h0
            simp [skipWs] at hsw
          have hvx := ihv i v r1 t hv (Or.inr hr1ne)
          rw [hvx]
          dsimp only
          rw [skipWs_ext r1 t d r2 hsw]
          dsimp only
          by_cases hcm : d = ','
          · rw [if_pos hcm] at h ⊢
            cases he2 : parseElements f r2 with
            | none => rw [he2] at h; cases h
            | some pr2 =>
              obtain ⟨vs2, r3⟩ := pr2
              rw [he2] at h
              dsimp only at h
              have hex := ihe r2 vs2 r3 t he2
              rw [hex]
              dsimp only
              injection h with h1
              injection h1 with hvs hr
              subst hvs
              subst hr
              rfl
          · by_cases hcb : d = ']'
            · rw [if_neg hcm, if_pos hcb] at h ⊢
              injection h with h1
              injection h1 with hvs hr
              subst hvs
              subst hr
              rfl
            · rw [if_neg hcm, if_neg hcb] at h
              cases h

/-! ## Field-for-field decoding (C6) -/

theorem decodeStep_skip (st : Product × Option String) (k : List Char) (v : Json)
    (h : matchKey k = none) : decodeStep st (k, v) = st := by
  simp [decodeStep, h]

theorem readField_applyField_other (fld fld' : PField) (v : Json)
    (st : Product × Option String) (h : fld' ≠ fld) :
    readField (applyField fld' v st).1 fld = readField st.1 fld := by
  cases v <;> cases fld' <;> cases fld <;>
    simp [applyField, readField] <;>
    first
    | exact absurd rfl h
    | (split <;> simp [readField])

theorem readField_foldl_unmatched (fld : PField) (kvs : List (List Char × Json)) :
    ∀ st : Product × Option String, (∀ kv ∈ kvs, matchKey kv.1 ≠ some fld) →
      readField ((kvs.foldl decodeStep st).1) fld = readField st.1 fld := by
  induction kvs with
  | nil => intro st _; rfl
  | cons kv rest ih =>
    intro st h
    rw [List.foldl_cons]
    rw [ih (decodeStep st kv) (fun x hx => h x (List.mem_cons_of_mem kv hx))]
    unfold decodeStep
    cases hmk : matchKey kv.1 with
    | none => rfl
    | some fld' =>
      have : fld' ≠ fld := by
        intro he
        exact h kv (List.mem_cons_self kv rest) (he ▸ hmk)
      exact readField_applyField_other fld fld' kv.2 st this

set_option maxRecDepth 10000 in
/-- Counterexample to C6 as stated: the response body `{"TITLE":"x"}` contains
no key among the five `Product` keys — in particular the key `title` is
missing — yet the successful result carries `title = "x"`, not the zero
value: Go's decoder also accepts case-insensitive key matches. -/
theorem addProduct_decode_strict_keys_counterexample :
    AddProduct ⟨"http://x", fun _ => Except.ok ⟨200, "\x7b\"TITLE\":\"x\"\x7d".data⟩, jsonMarshal⟩
        zeroProduct = (⟨"x", "", 0, "", ""⟩, none) ∧
    "TITLE".data ∉ ["title".data, "description".data, "price".data,
      "brand".data, "category".data] ∧
    (⟨"x", "", 0, "", ""⟩ : Product).title ≠ zeroProduct.title := by
  exact ⟨by decide, by decide, by decide⟩

/-- C6 (amended): on success the result is decoded from the response body
only — for a fixed response the result does not depend on the input product —
and the decoding is field-for-field under Go's (ASCII case-insensitive) key
matching: a member whose key matches no `Product` key case-insensitively is
ignored, and a field none of whose members match stays at its zero value. -/
theorem addProduct_decode_field_matching :
    (∀ (l₁ l₂ : List (List Char × Json)) (k : List Char) (v : Json),
      matchKey k = none →
        decodeVal (.obj (l₁ ++ (k, v) :: l₂)) = decodeVal (.obj (l₁ ++ l₂))) ∧
    (∀ (kvs : List (List Char × Json)) (fld : PField),
      (∀ kv ∈ kvs, matchKey kv.1 ≠ some fld) →
        readField ((kvs.foldl decodeStep (zeroProduct, none)).1) fld =
          readField zeroProduct fld) ∧
    (∀ (s : ProductService) (resp : Response) (p₁ p₂ : Product),
      s.client = (fun _ => Except.ok resp) → AddProduct s p₁ = AddProduct s p₂) := by
  refine ⟨?_, ?_, ?_⟩
  · intro l₁ l₂ k v h
    simp only [decodeVal]
    rw [List.foldl_append, List.foldl_append, List.foldl_cons,
      decodeStep_skip _ k v h]
  · intro kvs fld h
    exact readField_foldl_unmatched fld kvs (zeroProduct, none) h
  · intro s resp p₁ p₂ hcl
    unfold AddProduct
    simp only [jsonMarshal]
    by_cases hurl : containsCTL s.apiURL
    · simp [httpNewRequest, hurl]
    · simp [httpNewRequest, hurl, hcl]

/-- Witness for C6 (amended): an unmatched key `foo` is ignored; a member
list whose only key is `price` leaves `title` at its zero value; a constant
client makes the result input-independent. -/
theorem addProduct_decode_field_matching_witness :
    (matchKey "foo".data = none ∧
      decodeVal (.obj ([] ++ ("foo".data, Json.str "z".data) :: [])) =
        decodeVal (.obj ([] ++ []))) ∧
    ((∀ kv ∈ [("price".data, Json.num ['7'])], matchKey kv.1 ≠ some PField.title) ∧
      readField (([("price".data, Json.num ['7'])].foldl decodeStep
        (zeroProduct, none)).1) PField.title = readField zeroProduct PField.title) ∧
    AddProduct ⟨"http://x", fun _ => Except.ok ⟨200, "{}".data⟩, jsonMarshal⟩
        ⟨"a", "b", 3, "c", "d"⟩ =
      AddProduct ⟨"http://x", fun _ => Except.ok ⟨200, "{}".data⟩, jsonMarshal⟩
        zeroProduct := by
  refine ⟨⟨by decide, addProduct_decode_field_matching.1 [] [] _ _ (by decide)⟩,
    ⟨by decide, addProduct_decode_field_matching.2.1 _ _ (by decide)⟩,
    addProduct_decode_field_matching.2.2 _ ⟨200, "{}".data⟩ _ _ rfl⟩

/-- Witness for C7 at a concrete service. -/
theorem addProduct_malformed_body_decode_error_witness :
    containsCTL "http://x" = false ∧
    AddProduct ⟨"http://x", fun _ => Except.ok ⟨200, "\x7b\"invalid json".data⟩, jsonMarshal⟩
        zeroProduct =
      (zeroProduct, some (.decodeError "invalid JSON in response body")) := by
  refine ⟨by decide, ?_⟩
  exact (addProduct_malformed_body_decode_error
    ⟨"http://x", fun _ => Except.ok ⟨200, "\x7b\"invalid json".data⟩, jsonMarshal⟩
    zeroProduct (by decide) rfl).1

/-- C10: when an accepted response's body is one well-formed JSON object
followed by arbitrary trailing bytes, the call behaves exactly as with the
object alone: `Decoder.Decode` reads a single JSON value and never inspects
what follows it, so `AddProduct` succeeds with the product decoded from that
first object and the trailing bytes cause no decode error. -/
theorem addProduct_ignores_trailing_bytes (s : ProductService) (p : Product)
    (b t : List Char) (kvs : List (List Char × Json)) (q : Product)
    (hurl : containsCTL s.apiURL = false)
    (hb : parseValue (b.length + 8) b = some (.obj kvs, []))
    (hq : decodeVal (.obj kvs) = .ok q)
    (hcl : s.client = fun _ => Except.ok ⟨200, b ++ t⟩) :
    AddProduct s p = (q, none) := by
  have hbx := (parse_ext (b.length + 8)).1 b (.obj kvs) [] t hb (Or.inl rfl)
  rw [List.nil_append] at hbx
  have hmono := parseValue_mono_le (b.length + 8) ((b ++ t).length + 8)
    (by simp only [List.length_append]; omega) (b ++ t) (.obj kvs) t hbx
  unfold AddProduct
  simp only [jsonMarshal, httpNewRequest, hurl, Bool.false_eq_true, if_false, hcl]
  rw [if_neg (by simp)]
  unfold decodeResponseBody
  rw [hmono]
  dsimp only
  rw [hq]

set_option maxRecDepth 40000 in
/-- Witness for C10: the body `{"price":7}` followed by the garbage bytes
`xyz{"` still decodes to a product with price 7 and no error. -/
theorem addProduct_ignores_trailing_bytes_witness :
    containsCTL "http://x" = false ∧
    parseValue (("\x7b\"price\":7\x7d".data).length + 8) "\x7b\"price\":7\x7d".data =
      some (.obj [("price".data, Json.num ['7'])], []) ∧
    decodeVal (.obj [("price".data, Json.num ['7'])]) = .ok ⟨"", "", 7, "", ""⟩ ∧
    AddProduct ⟨"http://x",
        fun _ => Except.ok ⟨200, "\x7b\"price\":7\x7d".data ++ "xyz\x7b\"".data⟩, jsonMarshal⟩
        zeroProduct = (⟨"", "", 7, "", ""⟩, none) :=
  ⟨by decide, by rfl, by rfl,
    addProduct_ignores_trailing_bytes _ zeroProduct "\x7b\"price\":7\x7d".data "xyz\x7b\"".data
      [("price".data, Json.num ['7'])] ⟨"", "", 7, "", ""⟩ (by decide) (by rfl) (by rfl) rfl⟩

end DummyJson
